import Mathlib

/-!
# Verification development for `shuaiming/login` (OpenID 2.0 relying party)

Shallow embedding of `vendor/github.com/shuaiming/openid` (`association.go`,
`encoding.go`, `openid.go`) in the namespace `openid` and of `id.go` in the
namespace `login`.

Modelling conventions
* a Go `string` and a Go `[]byte` are both a Lean `String`, read as the sequence
  of its characters; every delimiter the code looks for (`/`, `,`, `:`, newline,
  the `openid.` prefix) is ASCII;
* a Go map is a key-unique association list (`GoMap`); `range` visits its entries
  in list order;
* `time.Time` is an integer instant (`Time`); a clock reading `time.Now()` is a
  parameter of the operation that takes it: `get` and the sweep it starts share
  the reading `now`, `associate` has a second reading `created` for the instant
  at which it builds the association;
* a Go `(value, error)` result is a pair whose second component is `none` for a
  `nil` error;
* `crypto/hmac` is a parameter (`Hmac`); `encoding/base64`, `strconv.Atoi`,
  `url.QueryEscape` and `url.Values.Encode` are modelled after the Go standard
  library; the answer of the provider to `http.Get` is a parameter of
  `associate`;
* the session of a request (package `sessions`, outside the repository) is a
  map with `Store`, `Load` and `Delete`.
-/

namespace openid

/-! ## Go maps -/

/-- A Go `map[string]V`: an association list in which no key occurs twice. -/
structure GoMap (V : Type) where
  entries : List (String × V)
  nodup : (entries.map Prod.fst).Nodup
  deriving DecidableEq

namespace GoMap

variable {V : Type}

/-- The empty map, `make(map[string]V)`. -/
def empty : GoMap V := ⟨[], List.nodup_nil⟩

/-- The comma-ok lookup `v, ok := m[k]`. -/
def Load (m : GoMap V) (k : String) : Option V :=
  (m.entries.find? (fun e => e.1 == k)).map Prod.snd

/-- Removal of a key, `delete(m, k)`. -/
def Delete (m : GoMap V) (k : String) : GoMap V :=
  ⟨m.entries.filter (fun e => !(e.1 == k)),
    (List.filter_sublist m.entries).map Prod.fst |>.nodup m.nodup⟩

/-- Assignment `m[k] = v`: the previous entry for `k`, if any, is replaced. -/
def Store (m : GoMap V) (k : String) (v : V) : GoMap V :=
  ⟨(k, v) :: (m.Delete k).entries, by
    refine List.nodup_cons.mpr ⟨?_, (m.Delete k).nodup⟩
    simp [Delete, List.mem_map, List.mem_filter]⟩

/-- The plain index expression `m[k]` on a `map[string]string`: the zero value
`""` when the key is absent. -/
def index (m : GoMap String) (k : String) : String :=
  (m.Load k).getD ""

end GoMap

/-! ## The `strings` functions the package calls -/

/-- Go `strings.TrimRight(s, cutset)`: `s` without its trailing characters that
occur in `cutset`. -/
def TrimRight (s cutset : String) : String :=
  ⟨(s.data.reverse.dropWhile (fun c => cutset.data.contains c)).reverse⟩

/-- Go `strings.HasPrefix(s, prefix)`. -/
def HasPrefix (s pre : String) : Bool :=
  pre.data.isPrefixOf s.data

/-- Go `strings.TrimPrefix(s, prefix)`. -/
def TrimPrefix (s pre : String) : String :=
  if HasPrefix s pre then ⟨s.data.drop pre.data.length⟩ else s

/-- Worker of `Split`/`SplitN` for a non-empty separator: scans `rest`, `skip`
is the number of characters of an already matched separator still to pass over,
`lim` the number of cuts still allowed.  The head of the result is the piece
being read. -/
def splitGo (sep : List Char) : List Char → Nat → Nat → List (List Char)
  | [], _, _ => [[]]
  | _ :: cs, skip + 1, lim => splitGo sep cs skip lim
  | c :: cs, 0, 0 => [c :: cs]
  | c :: cs, 0, lim + 1 =>
    if sep.isPrefixOf (c :: cs) then
      [] :: splitGo sep cs (sep.length - 1) lim
    else
      match splitGo sep cs 0 (lim + 1) with
      | [] => [[c]]
      | p :: ps => (c :: p) :: ps

/-- Go `strings.Split(s, sep)` (and `bytes.Split`): all pieces of `s` between
occurrences of `sep`; one piece, `s` itself, when `sep` does not occur; the
characters of `s` when `sep` is empty. -/
def Split (s sep : String) : List String :=
  if sep.data.isEmpty then s.data.map (fun c => String.mk [c])
  else (splitGo sep.data s.data 0 s.data.length).map String.mk

/-- Go `bytes.SplitN(s, sep, n)` for a non-empty separator: at most `n` pieces,
the last one the unsplit remainder; `nil` for `n = 0`, all pieces for `n < 0`. -/
def SplitN (s sep : String) (n : Int) : List String :=
  if n = 0 then []
  else if n < 0 then Split s sep
  else (splitGo sep.data s.data 0 (n.toNat - 1)).map String.mk

/-! ## Time -/

/-- An instant of `time.Time`, in nanoseconds. -/
abbrev Time := Int

/-- Go `t.After(u)`. -/
def Time.After (t u : Time) : Bool := decide (u < t)

/-- Go `t.Before(u)`. -/
def Time.Before (t u : Time) : Bool := decide (t < u)

/-! ## association.go -/

def hmacSHA1 : String := "HMAC-SHA1"

def hmacSHA256 : String := "HMAC-SHA256"

/-- The struct `Association`; `Typ` is the field `Type`, `Secret` a byte slice. -/
structure Association where
  Endpoint : String
  Handle : String
  Secret : List Nat
  Typ : String
  Expires : Time
  deriving DecidableEq, Repr

/-- The store `associations` (a `sync.Map` holding `*Association` values under
endpoint keys). -/
abbrev associations := GoMap Association

/-- The sweep `gc`: `Range` visits every entry and deletes the key of each
association whose `Expires` is before `now`; the result is the swept store
with the counts `from` and `from - purged`. -/
def associations.gc (as : associations) (now : Time) : associations × Int × Int :=
  let r := as.entries.foldl
    (fun (st : associations × Int × Int) (kv : String × Association) =>
      if kv.2.Expires.Before now then (st.1.Delete kv.1, st.2.1 + 1, st.2.2 + 1)
      else (st.1, st.2.1 + 1, st.2.2))
    (as, 0, 0)
  (r.1, r.2.1, r.2.1 - r.2.2)

/-- The lookup `get`: the store afterwards and the association found
(`none` for the Go result `nil, false`). -/
def associations.get (as : associations) (endpoint : String) (now : Time) :
    associations × Option Association :=
  let endpoint := TrimRight endpoint "/"
  match as.Load endpoint with
  | none => (as, none)
  | some assoc =>
    if assoc.Expires.After now then (as, some assoc)
    else ((as.gc now).1, none)

/-- The insertion `set`. -/
def associations.set (as : associations) (endpoint : String) (a : Association) :
    associations :=
  as.Store (TrimRight endpoint "/") a

/-! ## Library functions of `strconv`, `encoding/base64`, `crypto/hmac` -/

/-- Go `int64(x)` of a mathematical integer: two's complement wrap-around. -/
def wrapInt64 (x : Int) : Int := (x + 2 ^ 63) % 2 ^ 64 - 2 ^ 63

/-- Value of a run of decimal digits, `none` when a character is not a digit. -/
def parseDigits : List Char → Nat → Option Nat
  | [], acc => some acc
  | c :: cs, acc =>
    if '0' ≤ c ∧ c ≤ '9' then parseDigits cs (acc * 10 + (c.toNat - 48)) else none

/-- Go `strconv.Atoi` on a 64-bit platform; `none` stands for a non-nil error
(empty input, a character that is no digit after the optional sign, or a value
outside `int64`). -/
def Atoi (s : String) : Option Int :=
  let signed : Bool × List Char :=
    match s.data with
    | '-' :: r => (true, r)
    | '+' :: r => (false, r)
    | r => (false, r)
  if signed.2.isEmpty then none
  else
    match parseDigits signed.2 0 with
    | none => none
    | some n =>
      let v : Int := if signed.1 then -(n : Int) else (n : Int)
      if -(2 ^ 63 : Int) ≤ v ∧ v < 2 ^ 63 then some v else none

/-- The alphabet of `base64.StdEncoding`. -/
def encodeStd : String :=
  "ABCDEFGHIJKLMNOPQRSTUVWXYZabcdefghijklmnopqrstuvwxyz0123456789+/"

/-- The alphabet character of a 6-bit value. -/
def enc6 (n : Nat) : Char := encodeStd.data.getD (n % 64) 'A'

/-- The 6-bit value of an alphabet character. -/
def dec6 (c : Char) : Option Nat :=
  let i := encodeStd.data.indexOf c
  if i < 64 then some i else none

/-- Encoding of a byte sequence three bytes at a time, `=`-padded. -/
def encodeGroups : List Nat → List Char
  | [] => []
  | [a] =>
    let v := (a % 256) * 65536
    [enc6 (v / 262144), enc6 (v / 4096), '=', '=']
  | [a, b] =>
    let v := (a % 256) * 65536 + (b % 256) * 256
    [enc6 (v / 262144), enc6 (v / 4096), enc6 (v / 64), '=']
  | a :: b :: c :: rest =>
    let v := (a % 256) * 65536 + (b % 256) * 256 + c % 256
    enc6 (v / 262144) :: enc6 (v / 4096) :: enc6 (v / 64) :: enc6 v :: encodeGroups rest

/-- Go `base64.StdEncoding.EncodeToString`. -/
def EncodeToString (src : List Nat) : String := ⟨encodeGroups src⟩

/-- Decoding of four characters at a time; padding is accepted only in the last
quantum, as `xx==` or `xxx=`, and nothing may follow it. -/
def decodeQuanta : List Char → Option (List Nat)
  | [] => some []
  | a :: b :: c :: d :: rest =>
    match dec6 a, dec6 b with
    | some x, some y =>
      if c = '=' then
        if d = '=' ∧ rest = [] then some [(x * 64 + y) / 16 % 256] else none
      else
        match dec6 c with
        | none => none
        | some z =>
          let v := x * 262144 + y * 4096 + z * 64
          if d = '=' then
            if rest = [] then some [v / 65536 % 256, v / 256 % 256] else none
          else
            match dec6 d with
            | none => none
            | some w =>
              (decodeQuanta rest).map
                (fun out => (v + w) / 65536 % 256 :: (v + w) / 256 % 256 :: (v + w) % 256 :: out)
    | _, _ => none
  | _ => none

/-- Go `base64.StdEncoding.DecodeString`; `none` stands for a non-nil error.
Carriage returns and newlines are ignored wherever they stand. -/
def DecodeString (s : String) : Option (List Nat) :=
  decodeQuanta (s.data.filter (fun c => !(c == '\n' || c == '\r')))

/-- The keyed digests of `crypto/hmac` with `crypto/sha1` and `crypto/sha256`:
from the key and the bytes written to the hash to the digest `h.Sum(nil)`.
The standard library is not part of the repository, so they are parameters. -/
structure Hmac where
  sha1 : List Nat → String → List Nat
  sha256 : List Nat → String → List Nat

/-! ## Errors -/

/-- The `error` values the package builds with `fmt.Errorf`, with the value
each message formats. -/
inductive Err where
  /-- Message `unsupported association type %q`. -/
  | unsupportedType (t : String)
  /-- Message `no Association found for %s`. -/
  | noAssociation (endpoint : String)
  /-- Message `verify singed failed %s`. -/
  | verifyFailed (endpoint : String)
  /-- Message `invalid key-value line %q`. -/
  | invalidLine (b : String)
  /-- Message `associate with OpenID Server failed`. -/
  | associateFailed
  deriving DecidableEq, Repr

/-! ## encoding.go -/

/-- The type `url.Values`, a `map[string][]string`. -/
abbrev Values := GoMap (List String)

/-- The function `parseHTTP`: the first value of every key that starts with
`openid.`, under the key without that prefix. -/
def parseHTTP (v : Values) : GoMap String :=
  v.entries.foldl
    (fun (p : GoMap String) (kv : String × List String) =>
      match kv.2 with
      | [] => p
      | v0 :: _ =>
        if HasPrefix kv.1 "openid." then p.Store (TrimPrefix kv.1 "openid.") v0 else p)
    GoMap.empty

/-- The function `encodeHTTP`: `v.Set("openid." + k, pv)` for every entry of `p`. -/
def encodeHTTP (v : Values) (p : GoMap String) : Values :=
  p.entries.foldl
    (fun (v : Values) (kv : String × String) => v.Store ("openid." ++ kv.1) [kv.2]) v

/-- The loop of `parseKeyValue` over the lines still to read, `p` being the
map filled so far. -/
def parseKeyValueLines : List String → GoMap String → Option (GoMap String) × Option Err
  | [], p => (some p, none)
  | b :: bs, p =>
    if b.data.length = 0 then parseKeyValueLines bs p
    else
      match SplitN b ":" 2 with
      | [k, v] => parseKeyValueLines bs (p.Store k v)
      | _ => (none, some (Err.invalidLine b))

/-- The function `parseKeyValue`. -/
def parseKeyValue (body : String) : Option (GoMap String) × Option Err :=
  parseKeyValueLines (Split body "\n") GoMap.empty

/-- The function `writeKeyValuePair` on a writer that cannot fail (the hash of
`sign`): the writer's content after `key:value` and a newline are appended. -/
def writeKeyValuePair (w key value : String) : String :=
  w ++ key ++ ":" ++ value ++ "\n"

/-! ## Signing -/

/-- The method `Association.sign`: the signature and the error. -/
def Association.sign (H : Hmac) (a : Association) (params : GoMap String)
    (signed : List String) : String × Option Err :=
  let h : Option (String → List Nat) :=
    if a.Typ = hmacSHA1 then some (H.sha1 a.Secret)
    else if a.Typ = hmacSHA256 then some (H.sha256 a.Secret)
    else none
  match h with
  | none => ("", some (Err.unsupportedType a.Typ))
  | some sum =>
    let w := signed.foldl (fun w k => writeKeyValuePair w k (params.index k)) ""
    (EncodeToString (sum w), none)

/-! ## openid.go -/

/-- The struct `OpenID`. -/
structure OpenID where
  assocType : String
  realm : String
  assocs : associations

/-- The constructor `New`. -/
def New (realm : String) : OpenID :=
  { assocType := hmacSHA256, realm := realm, assocs := GoMap.empty }

/-- The method `IDRes` on the query `r.URL.Query()` of the request: the
relying party afterwards (its store may have been swept), the mapping returned
(`none` for `nil`) and the error. -/
def OpenID.IDRes (H : Hmac) (o : OpenID) (query : Values) (now : Time) :
    OpenID × Option (GoMap String) × Option Err :=
  let user := parseHTTP query
  let endpoint := user.index "op_endpoint"
  match o.assocs.get endpoint now with
  | (as, none) => ({ o with assocs := as }, none, some (Err.noAssociation endpoint))
  | (as, some assocs) =>
    match assocs.sign H user (Split (user.index "signed") ",") with
    | (_, some err) => ({ o with assocs := as }, none, some err)
    | (signed, none) =>
      if signed ≠ user.index "sig" then
        ({ o with assocs := as }, none, some (Err.verifyFailed endpoint))
      else ({ o with assocs := as }, some user, none)

/-- The method `associate`.  `now` is the clock reading of the store lookup,
`resp` the body read from the provider's answer to the association request
(`none` when `http.Get` or `ioutil.ReadAll` returned an error) and `created`
the clock reading when the association is built.  The result is the relying
party afterwards and the association (`none` for `nil`). -/
def OpenID.associate (o : OpenID) (endpoint : String) (now : Time)
    (resp : Option String) (created : Time) : OpenID × Option Association :=
  match o.assocs.get endpoint now with
  | (as, some assoc) => ({ o with assocs := as }, some assoc)
  | (as, none) =>
    match resp with
    | none => ({ o with assocs := as }, none)
    | some body =>
      match parseKeyValue body with
      | (some openidValues, none) =>
        match DecodeString (openidValues.index "mac_key") with
        | none => ({ o with assocs := as }, none)
        | some secret =>
          match Atoi (openidValues.index "expires_in") with
          | none => ({ o with assocs := as }, none)
          | some expiresIn =>
            let expiresDu := wrapInt64 (expiresIn * 1000000000)
            let assoc : Association :=
              { Endpoint := endpoint
                Handle := openidValues.index "assoc_handle"
                Secret := secret
                Typ := openidValues.index "assoc_type"
                Expires := created + expiresDu }
            ({ o with assocs := as.set endpoint assoc }, some assoc)
      | _ => ({ o with assocs := as }, none)

/-! ## Concrete values on which the definitions are run -/

/-- A stand-in for the keyed digests, used to run the definitions on concrete
requests: the key followed by the character codes of the message. -/
def sampleHmac : Hmac :=
  { sha1 := fun key msg => key ++ msg.data.map Char.toNat
    sha256 := fun key msg => key ++ msg.data.map Char.toNat }

/-- An association with the provider `https://op` that expires at instant 100. -/
def sampleAssoc : Association :=
  { Endpoint := "https://op", Handle := "h1", Secret := [1, 2], Typ := "HMAC-SHA256",
    Expires := 100 }

/-- A second association, expiring at instant 200. -/
def sampleAssocLate : Association :=
  { Endpoint := "https://late", Handle := "h2", Secret := [3], Typ := "HMAC-SHA1",
    Expires := 200 }

/-- A third association, expiring at instant 120. -/
def sampleAssocMid : Association :=
  { Endpoint := "https://mid", Handle := "h3", Secret := [4], Typ := "HMAC-SHA1",
    Expires := 120 }

/-- A relying party whose store holds `sampleAssoc` only. -/
def sampleRP : OpenID :=
  { assocType := hmacSHA256, realm := "https://rp",
    assocs := ⟨[("https://op", sampleAssoc)], by decide⟩ }

/-- A store with three entries. -/
def sampleStore : associations :=
  ⟨[("https://op", sampleAssoc), ("https://mid", sampleAssocMid),
    ("https://late", sampleAssocLate)], by decide⟩

/-- A callback query that names `op_endpoint` and `identity` as signed, with
the given `openid.sig`. -/
def sampleQuery (sig : String) : Values :=
  GoMap.Store
    ⟨[("openid.op_endpoint", ["https://op/"]), ("openid.signed", ["op_endpoint,identity"]),
      ("openid.identity", ["alice"]), ("state", ["x"])], by decide⟩
    "openid.sig" [sig]

/-- The signature of `sampleQuery` under `sampleAssoc` and `sampleHmac`. -/
def sampleSig : String := "AQJvcF9lbmRwb2ludDpodHRwczovL29wLwppZGVudGl0eTphbGljZQo="

/-- A provider answer without a `mac_key` line. -/
def bodyNoMacKey : String := "assoc_handle:ABC\nassoc_type:HMAC-SHA256\nexpires_in:3600\n"

/-- A complete provider answer with a lifetime of 3600 seconds. -/
def bodyLifetime3600 : String :=
  "assoc_handle:ABC\nmac_key:AQI=\nassoc_type:HMAC-SHA256\nexpires_in:3600\n"

/-- A complete provider answer with a lifetime of 0 seconds. -/
def bodyLifetime0 : String :=
  "assoc_handle:ABC\nmac_key:AQI=\nassoc_type:HMAC-SHA256\nexpires_in:0\n"

/-- The parameters `parseKeyValue` reads from `bodyLifetime3600`. -/
def valsLifetime3600 : GoMap String :=
  ⟨[("expires_in", "3600"), ("assoc_type", "HMAC-SHA256"), ("mac_key", "AQI="),
    ("assoc_handle", "ABC")], by decide⟩

/-! ## The signed bytes, as the specification words them -/

/-- The line of one signed name as the specification describes it: the name, a
colon, the value the mapping holds for the name (the empty value when the name
is absent) and a newline. -/
def signedLine (params : GoMap String) (name : String) : String :=
  name ++ ":" ++ (match params.Load name with
    | some value => value
    | none => "") ++ "\n"

/-- The byte string the specification describes for `sign`: the lines of the
signed names, concatenated in the order of the list. -/
def signedLines (params : GoMap String) : List String → String
  | [] => ""
  | name :: names => signedLine params name ++ signedLines params names

/-- What the loop of `sign` writes to the hash: `writeKeyValuePair` for every
name of `signed`, in order, with the value `params[k]`. -/
def signedBytes (params : GoMap String) (signed : List String) : String :=
  signed.foldl (fun w k => writeKeyValuePair w k (params.index k)) ""

/-! ## `net/url`: query escaping and `Values.Encode` -/

/-- The UTF-8 bytes of a character, from its code point. -/
def utf8Bytes (n : Nat) : List Nat :=
  if n < 128 then [n]
  else if n < 2048 then [192 + n / 64, 128 + n % 64]
  else if n < 65536 then [224 + n / 4096, 128 + n / 64 % 64, 128 + n % 64]
  else [240 + n / 262144, 128 + n / 4096 % 64, 128 + n / 64 % 64, 128 + n % 64]

/-- The upper-case hexadecimal digit of a value below 16. -/
def hexDigit (n : Nat) : Char := "0123456789ABCDEF".data.getD (n % 16) '0'

/-- Go `url.QueryEscape` on one character: letters, digits and `-`, `_`, `.`,
`~` stay, a space becomes `+`, every other byte becomes `%XX`. -/
def escapeChar (c : Char) : List Char :=
  if c.isAlphanum || c == '-' || c == '_' || c == '.' || c == '~' then [c]
  else if c == ' ' then ['+']
  else (utf8Bytes c.toNat).foldr (fun b acc => '%' :: hexDigit (b / 16) :: hexDigit b :: acc) []

/-- Go `url.QueryEscape`. -/
def QueryEscape (s : String) : String :=
  ⟨(s.data.map escapeChar).flatten⟩

/-- Byte-wise order of strings, as `sort.Strings` uses it. -/
def strLess : List Char → List Char → Bool
  | _, [] => false
  | [], _ :: _ => true
  | a :: as, b :: bs => a.toNat < b.toNat || (a.toNat == b.toNat && strLess as bs)

/-- Insertion of a key into a sorted list of keys. -/
def insertSorted (k : String) : List String → List String
  | [] => [k]
  | x :: xs => if strLess k.data x.data then k :: x :: xs else x :: insertSorted k xs

/-- Go `sort.Strings`. -/
def sortStrings (keys : List String) : List String :=
  keys.foldr insertSorted []

/-- Go `url.Values.Encode`: for the keys in sorted order and each of their
values, `key=value` with both sides escaped, the pairs separated by `&`. -/
def Encode (v : Values) : String :=
  let pairs := ((sortStrings (v.entries.map Prod.fst)).map
    (fun k => ((v.Load k).getD []).map (fun x => QueryEscape k ++ "=" ++ QueryEscape x))).flatten
  pairs.foldl (fun buf pair => if buf.data.isEmpty then pair else buf ++ "&" ++ pair) ""

/-! ## openid.go: constants and `CheckIDSetup` -/

def Namespace : String := "http://specs.openid.net/auth/2.0"

def ClaimedID : String := "http://specs.openid.net/auth/2.0/identifier"

def Identity : String := "http://specs.openid.net/auth/2.0/identifier_select"

def NSSreg : String := "http://openid.net/extensions/sreg/1.1"

/-- The map literal `values` of `CheckIDSetup`. -/
def checkIDSetupValues (handle realm callbackPrefix required : String) : GoMap String :=
  ((((((((GoMap.empty.Store "mode" "checkid_setup").Store "ns" Namespace).Store
    "assoc_handle" handle).Store "realm" realm).Store "return_to"
    (realm ++ callbackPrefix)).Store "claimed_id" ClaimedID).Store "identity" Identity).Store
    "ns.sreg" NSSreg).Store "sreg.required" required

/-- The method `CheckIDSetup`; `optional` is the variadic argument, the other
arguments after `callbackPrefix` are those of `associate`.  The result is the
relying party afterwards, the URL and the error. -/
def OpenID.CheckIDSetup (o : OpenID) (endpoint callbackPrefix : String)
    (optional : List String) (now : Time) (resp : Option String) (created : Time) :
    OpenID × String × Option Err :=
  let required :=
    match optional with
    | [] => "nickname,email,fullname"
    | first :: _ => first
  match o.associate endpoint now resp created with
  | (o', none) => (o', "", some Err.associateFailed)
  | (o', some assoc) =>
    let values := checkIDSetupValues assoc.Handle o.realm callbackPrefix required
    let v := encodeHTTP GoMap.empty values
    (o', endpoint ++ "?" ++ Encode v, none)

/-! ## More concrete values -/

/-- A mapping with a colon inside a name and inside a value. -/
def colonParams : GoMap String :=
  ⟨[("x", "y:z"), ("x:y", "z")], by decide⟩

/-- A mapping with two plain names. -/
def plainParams : GoMap String :=
  ⟨[("op_endpoint", "https://op/"), ("identity", "alice")], by decide⟩

/-- The query `sampleQuery sampleSig` with one more parameter, `openid.email`,
which `signed` does not name. -/
def sampleQueryEmail (email : String) : Values :=
  GoMap.Store (sampleQuery sampleSig) "openid.email" [email]

/-- A query container that holds the key `openid.x` with no value. -/
def emptyValueQuery : Values :=
  ⟨[("openid.x", [])], by decide⟩


end openid

/-! ## id.go: the login handler -/

namespace login

def urlKeyRedirect : String := "redirect"

def sesKeyOpenID : String := "github.com/shuaiming/openid/login.User"

def sesKeyRedirect : String := "github.com/shuaiming/openid/login.Redirect"

/-- Modelled from the spec: a value held by the session collaborator (a Go
`interface{}`).  The handler stores redirect targets, which are strings, and
verified assertions, which are parameter mappings (`none` for a nil map). -/
inductive SessionValue where
  | str (s : String)
  | user (m : Option (openid.GoMap String))
  deriving DecidableEq

/-- Modelled from the spec: the session collaborator `sessions.Session` of the
package `github.com/shuaiming/sessions`, which is not part of the repository:
`store(key, value)`, `load(key) -> (value, found)` and `delete(key)` on a
per-browser-session object, here a map from keys to values. -/
abbrev Session := openid.GoMap SessionValue

/-- The struct `OpenID` of package `login`; `pathPrefix` is the field `prefix`. -/
structure OpenID where
  pathPrefix : String
  realm : String
  endpoint : String
  openid : openid.OpenID
  redirect : String

/-- The constructor `New` of package `login`. -/
def New (pathPrefix realm endpoint keyRedir : String) : OpenID :=
  { openid := openid.New realm
    pathPrefix := pathPrefix
    realm := realm
    endpoint := endpoint
    redirect := if keyRedir = "" then urlKeyRedirect else keyRedir }

/-- What `ServeHTTP` reads of the `*http.Request`: the method, `r.URL.Path`,
`r.URL.Query()` and the session `sessions.GetSession(r)` (`none` for nil). -/
structure Request where
  Method : String
  Path : String
  Query : openid.Values
  session : Option Session

/-- What `ServeHTTP` does with the response: it hands the request to `next`,
redirects with `http.Redirect`, writes a status and a body, returns without
writing, or stops in a failed type assertion. -/
inductive Response where
  | next
  | redirect (url : String) (code : Nat)
  | written (code : Nat) (body : String)
  | nothing
  | panicked
  deriving DecidableEq

/-- Go `url.Values.Get`: the first value of the key, `""` when there is none. -/
def Get (v : openid.Values) (key : String) : String :=
  ((v.Load key).bind List.head?).getD ""

/-- The method `ServeHTTP`.  The arguments after the request are those of
`CheckIDSetup` and `IDRes`.  The result is the handler afterwards, the session
of the request afterwards and what was done with the response. -/
def OpenID.ServeHTTP (H : openid.Hmac) (o : OpenID) (r : Request) (now : openid.Time)
    (resp : Option String) (created : openid.Time) : OpenID × Option Session × Response :=
  if !openid.HasPrefix r.Path o.pathPrefix then (o, r.session, Response.next)
  else if r.Method ≠ "GET" ∧ r.Method ≠ "HEAD" then (o, r.session, Response.next)
  else
    match r.session with
    | none => (o, none, Response.next)
    | some s =>
      let redirectURL := Get r.Query urlKeyRedirect
      let loginURL := o.pathPrefix ++ "/login"
      let logoutURL := o.pathPrefix ++ "/logout"
      let verifyURL := o.pathPrefix ++ "/verify"
      if r.Path = loginURL then
        let s1 := if redirectURL ≠ "" then s.Store sesKeyRedirect (SessionValue.str redirectURL)
          else s
        match o.openid.CheckIDSetup o.endpoint verifyURL [] now resp created with
        | (oid, _, some _) => ({ o with openid := oid }, some s1, Response.nothing)
        | (oid, authURL, none) => ({ o with openid := oid }, some s1, Response.redirect authURL 302)
      else if r.Path = logoutURL then
        let s1 := s.Delete sesKeyOpenID
        if redirectURL ≠ "" then
          (o, some (s1.Delete sesKeyRedirect), Response.redirect redirectURL 302)
        else (o, some s1, Response.written 202 "logout\n")
      else if r.Path = verifyURL then
        match o.openid.IDRes H r.Query now with
        | (oid, _, some _) => ({ o with openid := oid }, some s, Response.nothing)
        | (oid, user, none) =>
          let s1 := s.Store sesKeyOpenID (SessionValue.user user)
          match s1.Load sesKeyRedirect with
          | some (SessionValue.str redirect) =>
            ({ o with openid := oid }, some (s1.Delete sesKeyRedirect),
              Response.redirect redirect 302)
          | some (SessionValue.user _) => ({ o with openid := oid }, some s1, Response.panicked)
          | none => ({ o with openid := oid }, some s1, Response.redirect o.realm 302)
      else (o, some s, Response.next)

/-- The function `GetUser`: the mapping stored under `sesKeyOpenID` (`some none`
for a nil map, also when the key is absent); `none` when the type assertion
`user.(map[string]string)` fails. -/
def GetUser (s : Session) : Option (Option (openid.GoMap String)) :=
  match s.Load sesKeyOpenID with
  | some (SessionValue.user m) => some m
  | some (SessionValue.str _) => none
  | none => some none

/-- A session that holds a pending redirect target only. -/
def sampleSession : Session :=
  ⟨[(sesKeyRedirect, SessionValue.str "/home")], by decide⟩

/-- The handler of `/auth` over the relying party `sampleRP`. -/
def sampleHandler : OpenID :=
  { pathPrefix := "/auth", realm := "https://rp", endpoint := "https://op",
    openid := openid.sampleRP, redirect := urlKeyRedirect }

/-- A GET request for `/auth/verify` with the correctly signed sample query. -/
def sampleVerify : Request :=
  { Method := "GET", Path := "/auth/verify",
    Query := openid.sampleQuery openid.sampleSig, session := some sampleSession }

end login

namespace openid

/-! ## Lemmas on maps and on the sweep -/

namespace GoMap

variable {V : Type}

theorem find_none_of_not_mem_keys (l : List (String × V)) (k : String)
    (h : k ∉ l.map Prod.fst) : l.find? (fun e => e.1 == k) = none := by
  induction l with
  | nil => rfl
  | cons e l ih =>
    simp only [List.map_cons, List.mem_cons, not_or] at h
    have hne : (e.1 == k) = false := by simpa using fun he => h.1 he.symm
    rw [List.find?_cons, hne]
    exact ih h.2

theorem Load_eq_some_iff (m : GoMap V) (k : String) (v : V) :
    m.Load k = some v ↔ (k, v) ∈ m.entries := by
  obtain ⟨l, hl⟩ := m
  simp only [Load]
  induction l with
  | nil => simp
  | cons e l ih =>
    obtain ⟨ek, ev⟩ := e
    simp only [List.map_cons, List.nodup_cons] at hl
    by_cases h : ek = k
    · subst h
      have hnot : ∀ w, (ek, w) ∉ l := fun w hw => hl.1 (List.mem_map.mpr ⟨(ek, w), hw, rfl⟩)
      simp [List.find?_cons, hnot]
      exact eq_comm
    · have hne : (ek == k) = false := by simpa using h
      rw [List.find?_cons]
      simp only [hne]
      rw [ih hl.2]
      simp [Ne.symm h]

theorem Load_Delete_self (m : GoMap V) (k : String) : (m.Delete k).Load k = none := by
  simp only [Load, Delete, Option.map_eq_none']
  apply find_none_of_not_mem_keys
  simp [List.mem_map, List.mem_filter]

theorem Load_Delete_ne (m : GoMap V) (k k' : String) (h : k' ≠ k) :
    (m.Delete k).Load k' = m.Load k' := by
  obtain ⟨l, hl⟩ := m
  simp only [Load, Delete]
  clear hl
  induction l with
  | nil => rfl
  | cons e l ih =>
    by_cases he : e.1 = k
    · have h1 : (e.1 == k') = false := by simpa [he] using Ne.symm h
      have h2 : (!(e.1 == k)) = false := by simp [he]
      rw [List.filter_cons, if_neg (by simp [h2]), List.find?_cons, h1]
      exact ih
    · have h2 : (!(e.1 == k)) = true := by simp [he]
      rw [List.filter_cons, if_pos h2, List.find?_cons, List.find?_cons]
      cases hk : (e.1 == k')
      · exact ih
      · rfl

theorem Load_Store_self (m : GoMap V) (k : String) (v : V) : (m.Store k v).Load k = some v := by
  simp [Load, Store]

theorem Load_Store_ne (m : GoMap V) (k k' : String) (v : V) (h : k' ≠ k) :
    (m.Store k v).Load k' = m.Load k' := by
  have h1 : (k == k') = false := by simpa using Ne.symm h
  rw [← Load_Delete_ne m k k' h]
  simp [Load, Store, List.find?_cons, h1]

end GoMap

/-- What the fold of `gc` leaves under a key: nothing when an entry of the swept
list with that key is expired, the previous value otherwise. -/
theorem gc_fold_Load (now : Time) (l : List (String × Association)) (k : String) :
    ∀ st : associations × Int × Int,
      (l.foldl
        (fun (st : associations × Int × Int) (kv : String × Association) =>
          if kv.2.Expires.Before now then (st.1.Delete kv.1, st.2.1 + 1, st.2.2 + 1)
          else (st.1, st.2.1 + 1, st.2.2)) st).1.Load k
      = if l.any (fun kv => kv.1 == k && kv.2.Expires.Before now) then none
        else st.1.Load k := by
  induction l with
  | nil => intro st; simp
  | cons e l ih =>
    intro st
    rw [List.foldl_cons, ih, List.any_cons]
    by_cases hany : l.any (fun kv => kv.1 == k && kv.2.Expires.Before now) = true
    · simp [hany]
    · simp only [hany, Bool.or_false]
      cases hb : e.2.Expires.Before now
      · simp
      · by_cases hk : e.1 = k
        · subst hk
          simp [GoMap.Load_Delete_self]
        · have : (e.1 == k) = false := by simpa using hk
          simp [this, GoMap.Load_Delete_ne _ _ _ (Ne.symm hk)]

theorem gc_Load (as : associations) (now : Time) (k : String) :
    (as.gc now).1.Load k = (as.Load k).filter (fun a => !a.Expires.Before now) := by
  unfold associations.gc
  simp only
  rw [gc_fold_Load]
  cases hload : as.Load k with
  | none => simp
  | some a =>
    have huniq : ∀ b, (k, b) ∈ as.entries → b = a := by
      intro b hb
      have := (GoMap.Load_eq_some_iff as k b).mpr hb
      rw [hload] at this
      exact (Option.some.inj this).symm
    have hmem := (GoMap.Load_eq_some_iff as k a).mp hload
    cases hb : a.Expires.Before now
    · have hany : as.entries.any (fun kv => kv.1 == k && kv.2.Expires.Before now) = false := by
        rw [List.any_eq_false]
        rintro ⟨k', b⟩ hmem'
        simp only [Bool.and_eq_true, beq_iff_eq, not_and]
        rintro rfl
        rw [huniq b hmem', hb]
        simp
      simp [hany, Option.filter, hb]
    · have hany : as.entries.any (fun kv => kv.1 == k && kv.2.Expires.Before now) = true := by
        rw [List.any_eq_true]
        exact ⟨(k, a), hmem, by simp [hb]⟩
      simp [hany, Option.filter, hb]

/-! ## Lemmas on `get`, `sign`, `IDRes` and `associate` -/

theorem get_of_Load_none (as : associations) (endpoint : String) (now : Time)
    (h : as.Load (TrimRight endpoint "/") = none) : as.get endpoint now = (as, none) := by
  simp only [associations.get, h]

theorem get_of_Load_valid (as : associations) (endpoint : String) (now : Time)
    (a : Association) (h : as.Load (TrimRight endpoint "/") = some a)
    (hv : now < a.Expires) : as.get endpoint now = (as, some a) := by
  have : a.Expires.After now = true := by simpa [Time.After] using hv
  simp only [associations.get, h, this, if_true]

theorem get_of_Load_expired (as : associations) (endpoint : String) (now : Time)
    (a : Association) (h : as.Load (TrimRight endpoint "/") = some a)
    (hv : a.Expires ≤ now) : as.get endpoint now = ((as.gc now).1, none) := by
  have : a.Expires.After now = false := by simpa [Time.After] using hv
  simp [associations.get, h, this]

/-- The three outcomes of `get`: no entry, a valid entry, an expired entry. -/
theorem get_cases (as : associations) (endpoint : String) (now : Time) :
    (as.Load (TrimRight endpoint "/") = none ∧ as.get endpoint now = (as, none)) ∨
    (∃ a, as.Load (TrimRight endpoint "/") = some a ∧ now < a.Expires ∧
      as.get endpoint now = (as, some a)) ∨
    (∃ a, as.Load (TrimRight endpoint "/") = some a ∧ a.Expires ≤ now ∧
      as.get endpoint now = ((as.gc now).1, none)) := by
  cases h : as.Load (TrimRight endpoint "/") with
  | none => exact Or.inl ⟨rfl, get_of_Load_none as endpoint now h⟩
  | some a =>
    rcases lt_or_le now a.Expires with hv | hv
    · exact Or.inr (Or.inl ⟨a, rfl, hv, get_of_Load_valid as endpoint now a h hv⟩)
    · exact Or.inr (Or.inr ⟨a, rfl, hv, get_of_Load_expired as endpoint now a h hv⟩)

/-- An entry found expired strictly before `now` is gone after `get`. -/
theorem get_removes_strictly_expired (as : associations) (e : String) (now : Time)
    (a : Association) (hload : as.Load (TrimRight e "/") = some a) (hexp : a.Expires < now) :
    (as.get e now).2 = none ∧ (as.get e now).1.Load (TrimRight e "/") = none := by
  rw [get_of_Load_expired as e now a hload (le_of_lt hexp)]
  refine ⟨rfl, ?_⟩
  rw [gc_Load, hload]
  have : a.Expires.Before now = true := by simpa [Time.Before] using hexp
  simp [Option.filter, this]

/-- An entry whose `Expires` equals `now` is reported as missing by `get` and is
still in the store afterwards. -/
theorem get_keeps_entry_at_expiry_instant (as : associations) (e : String) (a : Association)
    (hload : as.Load (TrimRight e "/") = some a) :
    (as.get e a.Expires).2 = none ∧ (as.get e a.Expires).1.Load (TrimRight e "/") = some a := by
  rw [get_of_Load_expired as e a.Expires a hload (le_refl _)]
  refine ⟨rfl, ?_⟩
  rw [gc_Load, hload]
  have : a.Expires.Before a.Expires = false := by simp [Time.Before]
  simp [Option.filter, this]

theorem sign_of_unsupported (H : Hmac) (a : Association) (params : GoMap String)
    (signed : List String) (h1 : a.Typ ≠ hmacSHA1) (h256 : a.Typ ≠ hmacSHA256) :
    a.sign H params signed = ("", some (Err.unsupportedType a.Typ)) := by
  simp [Association.sign, h1, h256]

theorem sign_of_supported (H : Hmac) (a : Association) (params : GoMap String)
    (signed : List String) (h : a.Typ = hmacSHA1 ∨ a.Typ = hmacSHA256) :
    (a.sign H params signed).2 = none := by
  unfold Association.sign
  rcases h with h | h
  · simp [h]
  · have hne : hmacSHA256 ≠ hmacSHA1 := by decide
    simp [h, hne]

/-- The bytes written to the hash depend on the parameters only through the
values of the signed names. -/
theorem signed_bytes_congr (p p' : GoMap String) (signed : List String)
    (h : ∀ k ∈ signed, p.index k = p'.index k) :
    ∀ w : String, signed.foldl (fun w k => writeKeyValuePair w k (p.index k)) w
      = signed.foldl (fun w k => writeKeyValuePair w k (p'.index k)) w := by
  induction signed with
  | nil => intro w; rfl
  | cons k ks ih =>
    intro w
    rw [List.foldl_cons, List.foldl_cons, h k (List.mem_cons_self k ks)]
    exact ih (fun k' hk' => h k' (List.mem_cons_of_mem k hk')) _

theorem sign_congr (H : Hmac) (a : Association) (p p' : GoMap String) (signed : List String)
    (h : ∀ k ∈ signed, p.index k = p'.index k) :
    a.sign H p signed = a.sign H p' signed := by
  unfold Association.sign
  rw [signed_bytes_congr p p' signed h]

/-- The result of `IDRes` when the lookup misses. -/
theorem IDRes_of_get_none (H : Hmac) (o : OpenID) (query : Values) (now : Time)
    (as : associations)
    (hg : o.assocs.get ((parseHTTP query).index "op_endpoint") now = (as, none)) :
    o.IDRes H query now =
      ({ o with assocs := as }, none,
        some (Err.noAssociation ((parseHTTP query).index "op_endpoint"))) := by
  simp only [OpenID.IDRes, hg]

/-- The result of `IDRes` when the lookup finds an association. -/
theorem IDRes_of_get_some (H : Hmac) (o : OpenID) (query : Values) (now : Time)
    (as : associations) (a : Association)
    (hg : o.assocs.get ((parseHTTP query).index "op_endpoint") now = (as, some a)) :
    o.IDRes H query now =
      match a.sign H (parseHTTP query) (Split ((parseHTTP query).index "signed") ",") with
      | (_, some err) => ({ o with assocs := as }, none, some err)
      | (signed, none) =>
        if signed ≠ (parseHTTP query).index "sig" then
          ({ o with assocs := as }, none,
            some (Err.verifyFailed ((parseHTTP query).index "op_endpoint")))
        else ({ o with assocs := as }, some (parseHTTP query), none) := by
  simp only [OpenID.IDRes, hg]

theorem wrapInt64_of_fits (x : Int) (h1 : -9223372036854775808 ≤ x)
    (h2 : x < 9223372036854775808) : wrapInt64 x = x := by
  unfold wrapInt64
  norm_num
  omega

/-- The association `associate` builds on a store miss when the provider's
answer is read, parsed and decoded. -/
theorem associate_of_miss (o : OpenID) (endpoint : String) (now : Time) (body : String)
    (created : Time) (as : associations) (vals : GoMap String) (secret : List Nat) (n : Int)
    (hg : o.assocs.get endpoint now = (as, none))
    (hvals : parseKeyValue body = (some vals, none))
    (hsec : DecodeString (vals.index "mac_key") = some secret)
    (hn : Atoi (vals.index "expires_in") = some n) :
    o.associate endpoint now (some body) created =
      (OpenID.mk o.assocType o.realm
          (as.set endpoint
            ⟨endpoint, vals.index "assoc_handle", secret, vals.index "assoc_type",
              created + wrapInt64 (n * 1000000000)⟩),
        some ⟨endpoint, vals.index "assoc_handle", secret, vals.index "assoc_type",
              created + wrapInt64 (n * 1000000000)⟩) := by
  simp only [OpenID.associate, hg, hvals, hsec, hn]

/-- A failed decoding of `mac_key` makes `associate` fail. -/
theorem associate_of_bad_secret (o : OpenID) (endpoint : String) (now : Time) (body : String)
    (created : Time) (as : associations) (vals : GoMap String)
    (hg : o.assocs.get endpoint now = (as, none))
    (hvals : parseKeyValue body = (some vals, none))
    (hsec : DecodeString (vals.index "mac_key") = none) :
    o.associate endpoint now (some body) created = ({ o with assocs := as }, none) := by
  simp only [OpenID.associate, hg, hvals, hsec]

/-! ## The claims -/

/-- C1: when `IDRes` returns a mapping without error, the store holds under the
`op_endpoint` value without trailing slashes an association that expires
strictly after `now`; the signature of that association over the decoded
parameters and the comma-split of `signed` is exactly the supplied `sig`; the
returned mapping is `parseHTTP` of the query (and the relying party is left as it
was).  In particular the same assertion with `sig` replaced by a different
string, every other decoded parameter kept, is rejected with the verification
error; the replacement is one that leaves the signed bytes alone, that is `sig`
is not itself among the names listed in `signed`. -/
theorem IDRes_accepted_sound (H : Hmac) (o : OpenID) (query : Values) (now : Time)
    (user : GoMap String) (h : (o.IDRes H query now).2 = (some user, none)) :
    (∃ a, o.assocs.Load (TrimRight ((parseHTTP query).index "op_endpoint") "/") = some a ∧
      now < a.Expires ∧
      a.sign H (parseHTTP query) (Split ((parseHTTP query).index "signed") ",")
        = ((parseHTTP query).index "sig", none)) ∧
    user = parseHTTP query ∧
    (o.IDRes H query now).1 = o ∧
    ∀ query' : Values,
      (∀ k, k ≠ "sig" → (parseHTTP query').index k = (parseHTTP query).index k) →
      (parseHTTP query').index "sig" ≠ (parseHTTP query).index "sig" →
      "sig" ∉ Split ((parseHTTP query).index "signed") "," →
      (o.IDRes H query' now).2 =
        (none, some (Err.verifyFailed ((parseHTTP query).index "op_endpoint"))) := by
  rcases get_cases o.assocs ((parseHTTP query).index "op_endpoint") now with
    ⟨_, hg⟩ | ⟨a, hl, hv, hg⟩ | ⟨_, _, _, hg⟩
  · rw [IDRes_of_get_none H o query now _ hg] at h
    simp at h
  · have hres := IDRes_of_get_some H o query now _ a hg
    rcases hsg : a.sign H (parseHTTP query) (Split ((parseHTTP query).index "signed") ",")
      with ⟨s, e⟩
    rw [hsg] at hres
    cases e with
    | some err => rw [hres] at h; simp at h
    | none =>
      by_cases hs : s = (parseHTTP query).index "sig"
      · simp only [hs, ne_eq, not_true_eq_false, if_false] at hres
        rw [hres] at h
        simp only [Prod.mk.injEq, Option.some.injEq, and_true] at h
        refine ⟨⟨a, hl, hv, by rw [hsg, hs]⟩, h.symm, by rw [hres], ?_⟩
        intro query' hagree hdiff hnotin
        have hep : (parseHTTP query').index "op_endpoint"
            = (parseHTTP query).index "op_endpoint" := hagree _ (by decide)
        have hsgn : (parseHTTP query').index "signed" = (parseHTTP query).index "signed" :=
          hagree _ (by decide)
        have hg' : o.assocs.get ((parseHTTP query').index "op_endpoint") now
            = (o.assocs, some a) := by
          rw [hep]; exact hg
        rw [IDRes_of_get_some H o query' now _ a hg', hsgn, hep]
        have hc : a.sign H (parseHTTP query') (Split ((parseHTTP query).index "signed") ",")
            = a.sign H (parseHTTP query) (Split ((parseHTTP query).index "signed") ",") :=
          sign_congr H a _ _ _ (fun k hk => hagree k (fun hks => hnotin (hks ▸ hk)))
        rw [hc, hsg, hs]
        simp [Ne.symm hdiff]
      · simp only [ne_eq, hs, not_false_eq_true, if_true] at hres
        rw [hres] at h
        simp at h
  · rw [IDRes_of_get_none H o query now _ hg] at h
    simp at h

/-- An accepted request: `sampleQuery sampleSig` at instant 50, with what C1
says about it. -/
theorem IDRes_accepted_sound_witness :
    (sampleRP.IDRes sampleHmac (sampleQuery sampleSig) 50).2
      = (some (parseHTTP (sampleQuery sampleSig)), none) ∧
    ((∃ a, sampleRP.assocs.Load
          (TrimRight ((parseHTTP (sampleQuery sampleSig)).index "op_endpoint") "/") = some a ∧
        (50 : Time) < a.Expires ∧
        a.sign sampleHmac (parseHTTP (sampleQuery sampleSig))
            (Split ((parseHTTP (sampleQuery sampleSig)).index "signed") ",")
          = ((parseHTTP (sampleQuery sampleSig)).index "sig", none)) ∧
      parseHTTP (sampleQuery sampleSig) = parseHTTP (sampleQuery sampleSig)) :=
  ⟨by decide,
    (IDRes_accepted_sound sampleHmac sampleRP (sampleQuery sampleSig) 50
        (parseHTTP (sampleQuery sampleSig)) (by decide)).1,
    (IDRes_accepted_sound sampleHmac sampleRP (sampleQuery sampleSig) 50
        (parseHTTP (sampleQuery sampleSig)) (by decide)).2.1⟩

/-- C2: when the store has no association under the `op_endpoint` value without
trailing slashes, or the one it has is expired (`now` is not strictly before its
`Expires`), `IDRes` returns no mapping and the no-association error, whatever
`signed` and `sig` are. -/
theorem IDRes_no_association (H : Hmac) (o : OpenID) (query : Values) (now : Time)
    (h : o.assocs.Load (TrimRight ((parseHTTP query).index "op_endpoint") "/") = none ∨
      ∃ a, o.assocs.Load (TrimRight ((parseHTTP query).index "op_endpoint") "/") = some a ∧
        a.Expires ≤ now) :
    (o.IDRes H query now).2 =
      (none, some (Err.noAssociation ((parseHTTP query).index "op_endpoint"))) := by
  rcases h with h | ⟨a, h, hexp⟩
  · rw [IDRes_of_get_none H o query now _ (get_of_Load_none _ _ now h)]
  · rw [IDRes_of_get_none H o query now _ (get_of_Load_expired _ _ now a h hexp)]

/-- A correctly signed request that arrives at instant 100, when the
association has expired, is answered with the no-association error. -/
theorem IDRes_no_association_witness :
    (∃ a, sampleRP.assocs.Load
        (TrimRight ((parseHTTP (sampleQuery sampleSig)).index "op_endpoint") "/") = some a ∧
      a.Expires ≤ (100 : Time)) ∧
    (sampleRP.IDRes sampleHmac (sampleQuery sampleSig) 100).2 =
      (none, some (Err.noAssociation ((parseHTTP (sampleQuery sampleSig)).index "op_endpoint"))) :=
  ⟨⟨sampleAssoc, by decide, by decide⟩,
    IDRes_no_association sampleHmac sampleRP (sampleQuery sampleSig) 100
      (Or.inr ⟨sampleAssoc, by decide, by decide⟩)⟩

/-- C3: when the store holds, under the `op_endpoint` value without trailing
slashes, an unexpired association of type HMAC-SHA1 or HMAC-SHA256 and the
`sig` of the request equals that association's signature over the decoded
parameters and the comma-split of `signed`, `IDRes` succeeds, returns
`parseHTTP` of the query and leaves the relying party as it was. -/
theorem IDRes_accepts_valid_signature (H : Hmac) (o : OpenID) (query : Values) (now : Time)
    (a : Association)
    (hload : o.assocs.Load (TrimRight ((parseHTTP query).index "op_endpoint") "/") = some a)
    (hexp : now < a.Expires)
    (htyp : a.Typ = "HMAC-SHA1" ∨ a.Typ = "HMAC-SHA256")
    (hsig : (parseHTTP query).index "sig" =
      (a.sign H (parseHTTP query) (Split ((parseHTTP query).index "signed") ",")).1) :
    o.IDRes H query now = (o, some (parseHTTP query), none) := by
  rw [IDRes_of_get_some H o query now _ a (get_of_Load_valid _ _ now a hload hexp)]
  have hs := sign_of_supported H a (parseHTTP query)
    (Split ((parseHTTP query).index "signed") ",") htyp
  rcases hsg : a.sign H (parseHTTP query) (Split ((parseHTTP query).index "signed") ",")
    with ⟨s, e⟩
  rw [hsg] at hs hsig
  simp only at hs hsig
  subst hs
  simp [hsig]

/-- The request `sampleQuery sampleSig` meets the conditions of C3 at instant 50. -/
theorem IDRes_accepts_valid_signature_witness :
    (sampleRP.assocs.Load
        (TrimRight ((parseHTTP (sampleQuery sampleSig)).index "op_endpoint") "/")
      = some sampleAssoc ∧
      (50 : Time) < sampleAssoc.Expires ∧
      (parseHTTP (sampleQuery sampleSig)).index "sig" =
        (sampleAssoc.sign sampleHmac (parseHTTP (sampleQuery sampleSig))
          (Split ((parseHTTP (sampleQuery sampleSig)).index "signed") ",")).1) ∧
    sampleRP.IDRes sampleHmac (sampleQuery sampleSig) 50
      = (sampleRP, some (parseHTTP (sampleQuery sampleSig)), none) :=
  ⟨⟨by decide, by decide, by decide⟩,
    IDRes_accepts_valid_signature sampleHmac sampleRP (sampleQuery sampleSig) 50 sampleAssoc
      (by decide) (by decide) (Or.inr rfl) (by decide)⟩

/-- C4 (the code at the failing input): on an empty store, with the provider
answer `bodyNoMacKey` that has no `mac_key` line, `associate` does not fail: it
returns an association with an empty secret and the store holds it afterwards. -/
theorem associate_without_mac_key_succeeds :
    ((New "https://rp").associate "https://op" 0 (some bodyNoMacKey) 5).2
      = some ⟨"https://op", "ABC", [], "HMAC-SHA256", 3600000000005⟩ ∧
    ((New "https://rp").associate "https://op" 0 (some bodyNoMacKey) 5).1.assocs.Load "https://op"
      = some ⟨"https://op", "ABC", [], "HMAC-SHA256", 3600000000005⟩ ∧
    (New "https://rp").assocs.Load "https://op" = none := by
  decide

/-- C5: an association that `get` returns expires strictly after `now` (so
`Expires.Before now` is false for it), and it is the one stored under the
endpoint without trailing slashes. -/
theorem get_found_unexpired (as : associations) (endpoint : String) (now : Time)
    (a : Association) (h : (as.get endpoint now).2 = some a) :
    now < a.Expires ∧ a.Expires.Before now = false ∧
    as.Load (TrimRight endpoint "/") = some a := by
  rcases get_cases as endpoint now with ⟨_, hg⟩ | ⟨b, hl, hv, hg⟩ | ⟨b, _, _, hg⟩
  · rw [hg] at h; cases h
  · rw [hg] at h
    cases h
    exact ⟨hv, by simpa [Time.Before] using le_of_lt hv, hl⟩
  · rw [hg] at h; cases h

/-- The lookup of `https://op/` at instant 50 finds `sampleAssoc`. -/
theorem get_found_unexpired_witness :
    (sampleRP.assocs.get "https://op/" 50).2 = some sampleAssoc ∧
    ((50 : Time) < sampleAssoc.Expires ∧ sampleAssoc.Expires.Before 50 = false ∧
      sampleRP.assocs.Load (TrimRight "https://op/" "/") = some sampleAssoc) :=
  ⟨by decide, get_found_unexpired sampleRP.assocs "https://op/" 50 sampleAssoc (by decide)⟩

/-- C6 (as stated, refuted): it is not true that every association `associate`
builds on a store miss expires strictly after the instant `created` at which it
was built; the answer `bodyLifetime0`, with `expires_in:0`, gives one that
expires at `created`. -/
theorem associate_expiry_not_always_after_creation :
    ¬ ∀ (o : OpenID) (endpoint : String) (now : Time) (resp : Option String)
        (created : Time) (a : Association),
        (o.assocs.get endpoint now).2 = none →
        (o.associate endpoint now resp created).2 = some a → created < a.Expires := by
  intro hall
  have h := hall (New "https://rp") "https://op" 0 (some bodyLifetime0) 5
    ⟨"https://op", "ABC", [1, 2], "HMAC-SHA256", 5⟩ (by decide) (by decide)
  revert h
  decide

/-- C6 (amended): when `associate` succeeds on a store miss and the answer's
`expires_in` is an integer `n` with `1 ≤ n ≤ 9223372036` (a positive lifetime
whose nanosecond count fits `int64`), the association it builds expires at
`created + n` seconds, strictly after `created`, and is the one the store holds
afterwards under the endpoint without trailing slashes. -/
theorem associate_expiry_after_creation (o : OpenID) (endpoint : String) (now : Time)
    (body : String) (created : Time) (a : Association) (vals : GoMap String) (n : Int)
    (hmiss : (o.assocs.get endpoint now).2 = none)
    (hvals : parseKeyValue body = (some vals, none))
    (hn : Atoi (vals.index "expires_in") = some n)
    (hpos : 0 < n) (hfit : n ≤ 9223372036)
    (hok : (o.associate endpoint now (some body) created).2 = some a) :
    a.Expires = created + n * 1000000000 ∧ created < a.Expires ∧
    (o.associate endpoint now (some body) created).1.assocs.Load (TrimRight endpoint "/")
      = some a := by
  rcases hget : o.assocs.get endpoint now with ⟨as, r⟩
  rw [hget] at hmiss
  simp only at hmiss
  subst hmiss
  cases hsec : DecodeString (vals.index "mac_key") with
  | none =>
    rw [associate_of_bad_secret o endpoint now body created as vals hget hvals hsec] at hok
    cases hok
  | some secret =>
    have hres := associate_of_miss o endpoint now body created as vals secret n hget hvals hsec hn
    rw [hres] at hok ⊢
    have hok' := Option.some.inj hok
    subst hok'
    have hw : wrapInt64 (n * 1000000000) = n * 1000000000 :=
      wrapInt64_of_fits _ (by omega) (by omega)
    refine ⟨?_, ?_, GoMap.Load_Store_self _ _ _⟩
    · show created + wrapInt64 (n * 1000000000) = created + n * 1000000000
      rw [hw]
    · show created < created + wrapInt64 (n * 1000000000)
      rw [hw]
      have hpos' : (0 : Int) < n * 1000000000 := by omega
      exact lt_add_of_pos_right created hpos'

/-- The answer `bodyLifetime3600` read at instant 5 gives an association that
expires 3600 seconds later. -/
theorem associate_expiry_after_creation_witness :
    (((New "https://rp").assocs.get "https://op/" 0).2 = none ∧
      parseKeyValue bodyLifetime3600 = (some valsLifetime3600, none) ∧
      Atoi (valsLifetime3600.index "expires_in") = some 3600 ∧
      ((New "https://rp").associate "https://op/" 0 (some bodyLifetime3600) 5).2
        = some ⟨"https://op/", "ABC", [1, 2], "HMAC-SHA256", 3600000000005⟩) ∧
    ((3600000000005 : Time) = 5 + 3600 * 1000000000 ∧ (5 : Time) < 3600000000005 ∧
      ((New "https://rp").associate "https://op/" 0 (some bodyLifetime3600) 5).1.assocs.Load
          (TrimRight "https://op/" "/")
        = some ⟨"https://op/", "ABC", [1, 2], "HMAC-SHA256", 3600000000005⟩) :=
  ⟨⟨by decide, by decide, by decide, by decide⟩,
    associate_expiry_after_creation (New "https://rp") "https://op/" 0 bodyLifetime3600 5
      ⟨"https://op/", "ABC", [1, 2], "HMAC-SHA256", 3600000000005⟩ valsLifetime3600 3600
      (by decide) (by decide) (by decide) (by decide) (by decide) (by decide)⟩

/-- C7: after `set(e1, a)` on any store, for an association `a` that expires
after `now` and endpoints `e1`, `e2` that are equal once their trailing slashes
are stripped, `get(e2)` returns `a` and leaves the store as `set` made it. -/
theorem set_then_get (as : associations) (a : Association) (e1 e2 : String) (now : Time)
    (hexp : now < a.Expires) (heq : TrimRight e1 "/" = TrimRight e2 "/") :
    (as.set e1 a).get e2 now = (as.set e1 a, some a) := by
  apply get_of_Load_valid _ _ _ _ _ hexp
  rw [associations.set, heq]
  exact GoMap.Load_Store_self as _ a

/-- The store of `sampleRP` already has an entry for `https://op`; `sampleAssocLate`
set under `https://op/` is what `get` of `https://op` returns. -/
theorem set_then_get_witness :
    ((50 : Time) < sampleAssocLate.Expires ∧
      TrimRight "https://op/" "/" = TrimRight "https://op" "/") ∧
    (sampleRP.assocs.set "https://op/" sampleAssocLate).get "https://op" 50
      = (sampleRP.assocs.set "https://op/" sampleAssocLate, some sampleAssocLate) :=
  ⟨⟨by decide, by decide⟩,
    set_then_get sampleRP.assocs sampleAssocLate "https://op/" "https://op" 50
      (by decide) (by decide)⟩

/-- C8 (the code at the failing input): the store of `sampleRP` holds
`sampleAssoc`, which expires at instant 100; `get` at instant 100 reports it as
not found, and the store still holds it afterwards. -/
theorem get_at_expiry_instant_leaves_entry :
    sampleRP.assocs.Load (TrimRight "https://op/" "/") = some sampleAssoc ∧
    ¬ ((100 : Time) < sampleAssoc.Expires) ∧
    (sampleRP.assocs.get "https://op/" 100).2 = none ∧
    (sampleRP.assocs.get "https://op/" 100).1.Load (TrimRight "https://op/" "/")
      = some sampleAssoc := by
  decide

/-- C9: when `get(e)` finds the entry for `e` expired, it returns not-found and
the sweep covers the whole store: afterwards no entry under any key has
`Expires` earlier than `now`, every entry whose `Expires` is later than `now` is
still there with the same association, and no entry has been added. -/
theorem get_expired_sweeps_store (as : associations) (e : String) (now : Time)
    (a : Association) (hload : as.Load (TrimRight e "/") = some a) (hexp : a.Expires ≤ now) :
    (as.get e now).2 = none ∧
    (∀ k b, (as.get e now).1.Load k = some b → ¬ b.Expires < now) ∧
    (∀ k b, as.Load k = some b → now < b.Expires → (as.get e now).1.Load k = some b) ∧
    (∀ k b, (as.get e now).1.Load k = some b → as.Load k = some b) := by
  rw [get_of_Load_expired as e now a hload hexp]
  refine ⟨rfl, ?_, ?_, ?_⟩
  · intro k b hb
    rw [gc_Load] at hb
    obtain ⟨_, hnb⟩ := Option.filter_eq_some.mp hb
    simpa [Time.Before] using hnb
  · intro k b hb hlt
    rw [gc_Load, hb]
    have : b.Expires.Before now = false := by simpa [Time.Before] using le_of_lt hlt
    simp [Option.filter, this]
  · intro k b hb
    rw [gc_Load] at hb
    exact (Option.filter_eq_some.mp hb).1

/-- At instant 150 the lookup of `https://op` in `sampleStore` finds an expired
entry; the sweep also removes the expired entry of `https://mid` and keeps the
entry of `https://late`. -/
theorem get_expired_sweeps_store_witness :
    (sampleStore.Load (TrimRight "https://op/" "/") = some sampleAssoc ∧
      sampleAssoc.Expires ≤ (150 : Time)) ∧
    (sampleStore.get "https://op/" 150).1.Load "https://mid" = none ∧
    (sampleStore.get "https://op/" 150).1.Load "https://late" = some sampleAssocLate ∧
    ((sampleStore.get "https://op/" 150).2 = none ∧
      (∀ k b, (sampleStore.get "https://op/" 150).1.Load k = some b → ¬ b.Expires < 150) ∧
      (∀ k b, sampleStore.Load k = some b → 150 < b.Expires →
        (sampleStore.get "https://op/" 150).1.Load k = some b) ∧
      (∀ k b, (sampleStore.get "https://op/" 150).1.Load k = some b →
        sampleStore.Load k = some b)) :=
  ⟨⟨by decide, by decide⟩, by decide, by decide,
    get_expired_sweeps_store sampleStore "https://op/" 150 sampleAssoc (by decide) (by decide)⟩

/-- C10: `sign` returns an error exactly when the association's `Type` is
neither `HMAC-SHA1` nor `HMAC-SHA256`; the error comes as a returned value
beside the empty signature (the function is total, there is no other outcome),
and for the two supported types `sign` returns no error. -/
theorem sign_error_iff_unsupported (H : Hmac) (a : Association) (params : GoMap String)
    (signed : List String) :
    ((a.sign H params signed).2 ≠ none ↔ (a.Typ ≠ "HMAC-SHA1" ∧ a.Typ ≠ "HMAC-SHA256")) ∧
    ((a.sign H params signed).2 ≠ none →
      a.sign H params signed = ("", some (Err.unsupportedType a.Typ))) ∧
    ((a.Typ = "HMAC-SHA1" ∨ a.Typ = "HMAC-SHA256") → (a.sign H params signed).2 = none) := by
  by_cases h : a.Typ = hmacSHA1 ∨ a.Typ = hmacSHA256
  · have hs := sign_of_supported H a params signed h
    refine ⟨⟨fun hne => absurd hs hne, fun hn => ?_⟩, fun hne => absurd hs hne, fun _ => hs⟩
    rcases h with h | h
    · exact absurd h hn.1
    · exact absurd h hn.2
  · have h' := not_or.mp h
    have hs := sign_of_unsupported H a params signed h'.1 h'.2
    exact ⟨⟨fun _ => h', fun _ => by rw [hs]; simp⟩, fun _ => hs, fun hsup => absurd hsup h⟩

/-! ## Lemmas on the signed bytes -/

/-- The loop of `sign` appends the specification's lines to the writer. -/
theorem signed_fold_eq (p : GoMap String) (signed : List String) :
    ∀ w : String, signed.foldl (fun w k => writeKeyValuePair w k (p.index k)) w
      = w ++ signedLines p signed := by
  induction signed with
  | nil => intro w; simp [signedLines]
  | cons k ks ih =>
    intro w
    rw [List.foldl_cons, ih]
    have hline : writeKeyValuePair w k (p.index k) = w ++ signedLine p k := by
      unfold writeKeyValuePair signedLine GoMap.index
      cases p.Load k <;> simp [String.append_assoc]
    rw [hline, signedLines, String.append_assoc]

theorem signed_fold_empty (p : GoMap String) (signed : List String) :
    signed.foldl (fun w k => writeKeyValuePair w k (p.index k)) "" = signedLines p signed := by
  rw [signed_fold_eq]; simp

theorem signedLine_data (p : GoMap String) (k : String) :
    (signedLine p k).data = k.data ++ ':' :: ((p.index k).data ++ ['\n']) := by
  unfold signedLine GoMap.index
  cases p.Load k <;> simp [String.data_append]

theorem signedLines_data_cons (p : GoMap String) (k : String) (ks : List String) :
    (signedLines p (k :: ks)).data
      = k.data ++ ':' :: ((p.index k).data ++ '\n' :: (signedLines p ks).data) := by
  rw [signedLines, String.data_append, signedLine_data]
  simp

/-- Two runs of characters that agree up to and after their first colons. -/
theorem colon_split (a b x y : List Char) (ha : ':' ∉ a) (hb : ':' ∉ b)
    (h : a ++ ':' :: x = b ++ ':' :: y) : a = b ∧ x = y := by
  induction a generalizing b with
  | nil =>
    cases b with
    | nil => simpa using h
    | cons c cs =>
      simp only [List.nil_append, List.cons_append, List.cons.injEq] at h
      exact absurd (h.1 ▸ List.mem_cons_self _ _) hb
  | cons c cs ih =>
    cases b with
    | nil =>
      simp only [List.nil_append, List.cons_append, List.cons.injEq] at h
      exact absurd (h.1 ▸ List.mem_cons_self _ _) ha
    | cons d ds =>
      simp only [List.cons_append, List.cons.injEq] at h
      have := ih ds (fun hm => ha (List.mem_cons_of_mem _ hm))
        (fun hm => hb (List.mem_cons_of_mem _ hm)) h.2
      exact ⟨by rw [h.1, this.1], this.2⟩

/-- Under one mapping, lists of colon-free names with the same signed bytes
are the same list. -/
theorem signedLines_injective (p : GoMap String) :
    ∀ l1 l2 : List String, (∀ n ∈ l1, ':' ∉ n.data) → (∀ n ∈ l2, ':' ∉ n.data) →
      signedLines p l1 = signedLines p l2 → l1 = l2 := by
  intro l1
  induction l1 with
  | nil =>
    intro l2 _ _ h
    cases l2 with
    | nil => rfl
    | cons k ks =>
      have := congrArg String.data h
      rw [signedLines_data_cons] at this
      simp [signedLines] at this
  | cons k ks ih =>
    intro l2 h1 h2 h
    cases l2 with
    | nil =>
      have := congrArg String.data h
      rw [signedLines_data_cons] at this
      simp [signedLines] at this
    | cons k' ks' =>
      have hd := congrArg String.data h
      rw [signedLines_data_cons, signedLines_data_cons] at hd
      have hk := colon_split _ _ _ _ (h1 k (List.mem_cons_self _ _))
        (h2 k' (List.mem_cons_self _ _)) hd
      have hkk : k = k' := String.ext hk.1
      subst hkk
      have hrest : (signedLines p ks).data = (signedLines p ks').data := by
        have h2' := hk.2
        rw [List.append_cancel_left_eq] at h2'
        exact (List.cons.inj h2').2
      rw [ih ks' (fun n hn => h1 n (List.mem_cons_of_mem _ hn))
        (fun n hn => h2 n (List.mem_cons_of_mem _ hn)) (String.ext hrest)]

/-- How the length of the signed bytes moves when the value of `k` changes. -/
theorem signedLines_length_change (p p' : GoMap String) (k : String)
    (hrest : ∀ n, n ≠ k → p'.index n = p.index n) (l : List String) :
    (signedLines p' l).data.length + l.count k * (p.index k).data.length
      = (signedLines p l).data.length + l.count k * (p'.index k).data.length := by
  induction l with
  | nil => simp [signedLines]
  | cons n ns ih =>
    rw [signedLines_data_cons, signedLines_data_cons]
    by_cases hn : n = k
    · subst hn
      simp only [List.count_cons_self, List.length_append, List.length_cons, Nat.add_mul,
        Nat.one_mul]
      omega
    · rw [hrest n hn, List.count_cons_of_ne (Ne.symm hn)]
      simp only [List.length_append, List.length_cons]
      omega

/-- A changed value under a signed name changes the signed bytes. -/
theorem signedLines_ne_of_changed_value (p p' : GoMap String) (k : String)
    (hne : p'.index k ≠ p.index k) (hrest : ∀ n, n ≠ k → p'.index n = p.index n) :
    ∀ l : List String, k ∈ l → signedLines p' l ≠ signedLines p l := by
  intro l
  induction l with
  | nil => intro hk; cases hk
  | cons n ns ih =>
    intro hk heq
    have hd := congrArg String.data heq
    rw [signedLines_data_cons, signedLines_data_cons] at hd
    by_cases hn : n = k
    · subst hn
      rw [List.append_cancel_left_eq] at hd
      have hd' := (List.cons.inj hd).2
      have hlen := congrArg List.length hd'
      simp only [List.length_append, List.length_cons] at hlen
      have hch := signedLines_length_change p p' n hrest ns
      have hvv : (p'.index n).data.length = (p.index n).data.length := by
        rcases Nat.lt_trichotomy (p'.index n).data.length (p.index n).data.length with
          hlt | heq' | hgt
        · have := Nat.mul_le_mul_left (ns.count n) (Nat.le_of_lt hlt)
          omega
        · exact heq'
        · have := Nat.mul_le_mul_left (ns.count n) (Nat.le_of_lt hgt)
          omega
      exact hne (String.ext (List.append_inj hd' hvv).1)
    · rw [hrest n hn, List.append_cancel_left_eq] at hd
      have hd' := (List.cons.inj hd).2
      rw [List.append_cancel_left_eq] at hd'
      have hk' : k ∈ ns := by
        rcases List.mem_cons.mp hk with h | h
        · exact absurd h.symm hn
        · exact h
      exact ih hk' (String.ext (List.cons.inj hd').2)

theorem signedBytes_eq_signedLines (p : GoMap String) (signed : List String) :
    signedBytes p signed = signedLines p signed :=
  signed_fold_empty p signed

theorem sign_of_sha1 (H : Hmac) (a : Association) (p : GoMap String) (signed : List String)
    (h : a.Typ = hmacSHA1) :
    a.sign H p signed = (EncodeToString (H.sha1 a.Secret (signedBytes p signed)), none) := by
  simp [Association.sign, signedBytes, h]

theorem sign_of_sha256 (H : Hmac) (a : Association) (p : GoMap String) (signed : List String)
    (h : a.Typ = hmacSHA256) :
    a.sign H p signed = (EncodeToString (H.sha256 a.Secret (signedBytes p signed)), none) := by
  have hne : hmacSHA256 ≠ hmacSHA1 := by decide
  simp [Association.sign, signedBytes, h, hne]

/-! ## Lemmas on `Split`, `SplitN` and `parseKeyValue` -/


theorem splitGo_cons_sep (s : Char) (cs : List Char) (lim : Nat) :
    splitGo [s] (s :: cs) 0 (lim + 1) = [] :: splitGo [s] cs 0 lim := by
  rw [splitGo]
  simp [List.isPrefixOf]

theorem splitGo_cons_other (s c : Char) (cs : List Char) (lim : Nat) (h : c ≠ s) :
    splitGo [s] (c :: cs) 0 (lim + 1) =
      match splitGo [s] cs 0 (lim + 1) with
      | [] => [[c]]
      | p :: ps => (c :: p) :: ps := by
  rw [splitGo]
  have hp : ([s].isPrefixOf (c :: cs)) = false := by
    simp [List.isPrefixOf, Ne.symm h]
  rw [if_neg (by simp [hp])]

theorem splitGo_no_cut (sep l : List Char) : l ≠ [] → splitGo sep l 0 0 = [l] := by
  cases l with
  | nil => intro h; exact absurd rfl h
  | cons c cs => intro _; rw [splitGo]

theorem splitGo_no_cut_any (sep l : List Char) : splitGo sep l 0 0 = [l] := by
  cases l with
  | nil => rw [splitGo]
  | cons c cs => rw [splitGo]

/-- Before the first occurrence of the separator `s`. -/
theorem splitGo_before_sep (s : Char) (a rest : List Char) (lim : Nat) (ha : s ∉ a) :
    splitGo [s] (a ++ s :: rest) 0 (lim + 1) = a :: splitGo [s] rest 0 lim := by
  induction a with
  | nil => exact splitGo_cons_sep s rest lim
  | cons c cs ih =>
    have hc : c ≠ s := fun h => ha (h ▸ List.mem_cons_self _ _)
    rw [List.cons_append, splitGo_cons_other s c _ lim hc,
      ih (fun hm => ha (List.mem_cons_of_mem _ hm))]

/-- A run without the separator `s` is one piece. -/
theorem splitGo_of_not_mem (s : Char) (l : List Char) (lim : Nat) (h : s ∉ l) :
    splitGo [s] l 0 lim = [l] := by
  induction l with
  | nil => rw [splitGo]
  | cons c cs ih =>
    cases lim with
    | zero => rw [splitGo]
    | succ lim =>
      have hc : c ≠ s := fun h' => h (h' ▸ List.mem_cons_self _ _)
      rw [splitGo_cons_other s c _ lim hc, ih (fun hm => h (List.mem_cons_of_mem _ hm))]

theorem SplitN_colon_of_mem (k v : String) (hk : ':' ∉ k.data) :
    SplitN (k ++ ":" ++ v) ":" 2 = [k, v] := by
  have hd : (k ++ ":" ++ v).data = k.data ++ ':' :: v.data := by
    simp [String.data_append]
  simp only [SplitN]
  rw [if_neg (by decide), if_neg (by decide), hd]
  have h1 : (2 : Int).toNat - 1 = 0 + 1 := by decide
  rw [h1]
  rw [splitGo_before_sep ':' k.data v.data 0 hk, splitGo_no_cut_any]
  rfl

theorem SplitN_colon_of_not_mem (b : String) (h : ':' ∉ b.data) :
    SplitN b ":" 2 = [b] := by
  simp only [SplitN]
  rw [if_neg (by decide), if_neg (by decide)]
  rw [splitGo_of_not_mem ':' b.data _ h]
  rfl

/-- A line with a colon splits in two at its first colon. -/
theorem SplitN_colon_exists (b : String) (h : ':' ∈ b.data) :
    ∃ k v : String, ':' ∉ k.data ∧ b = k ++ ":" ++ v ∧ SplitN b ":" 2 = [k, v] := by
  obtain ⟨a, x, hax, ha⟩ : ∃ a x, b.data = a ++ ':' :: x ∧ ':' ∉ a := by
    generalize b.data = l at h
    induction l with
    | nil => cases h
    | cons c cs ih =>
      by_cases hc : c = ':'
      · exact ⟨[], cs, by simp [hc], by simp⟩
      · have hm : ':' ∈ cs := by
          rcases List.mem_cons.mp h with h' | h'
          · exact absurd h'.symm hc
          · exact h'
        obtain ⟨a, x, hax, ha⟩ := ih hm
        refine ⟨c :: a, x, by simp [hax], ?_⟩
        intro hmem
        rcases List.mem_cons.mp hmem with h' | h'
        · exact hc h'.symm
        · exact ha h'
  have hb : b = String.mk a ++ ":" ++ String.mk x := by
    apply String.ext
    simp [String.data_append, hax]
  refine ⟨String.mk a, String.mk x, ha, hb, ?_⟩
  rw [hb]
  exact SplitN_colon_of_mem _ _ ha

theorem parseKeyValueLines_skip (b : String) (bs : List String) (p : GoMap String)
    (h : b.data = []) : parseKeyValueLines (b :: bs) p = parseKeyValueLines bs p := by
  rw [parseKeyValueLines, if_pos (by simp [h])]

theorem parseKeyValueLines_pair (b k v : String) (bs : List String) (p : GoMap String)
    (h : b.data ≠ []) (hs : SplitN b ":" 2 = [k, v]) :
    parseKeyValueLines (b :: bs) p = parseKeyValueLines bs (p.Store k v) := by
  rw [parseKeyValueLines, if_neg (fun h0 => h (List.length_eq_zero.mp h0)), hs]

theorem parseKeyValueLines_bad (b : String) (bs : List String) (p : GoMap String)
    (h : b.data ≠ []) (hc : ':' ∉ b.data) :
    parseKeyValueLines (b :: bs) p = (none, some (Err.invalidLine b)) := by
  rw [parseKeyValueLines, if_neg (fun h0 => h (List.length_eq_zero.mp h0)),
    SplitN_colon_of_not_mem b hc]

/-- The loop fails exactly when some line is not empty and has no colon; it
returns a mapping exactly when it does not fail. -/
theorem parseKeyValueLines_spec (lines : List String) :
    ∀ p : GoMap String,
      ((parseKeyValueLines lines p).2 ≠ none ↔ ∃ b ∈ lines, b.data ≠ [] ∧ ':' ∉ b.data) ∧
      ((parseKeyValueLines lines p).2 ≠ none → (parseKeyValueLines lines p).1 = none) ∧
      ((parseKeyValueLines lines p).2 = none → (parseKeyValueLines lines p).1 ≠ none) := by
  induction lines with
  | nil => intro p; simp [parseKeyValueLines]
  | cons b bs ih =>
    intro p
    by_cases hb : b.data = []
    · rw [parseKeyValueLines_skip b bs p hb]
      obtain ⟨h1, h2, h3⟩ := ih p
      refine ⟨?_, h2, h3⟩
      rw [h1]
      constructor
      · rintro ⟨c, hc, hne, hcol⟩
        exact ⟨c, List.mem_cons_of_mem _ hc, hne, hcol⟩
      · rintro ⟨c, hc, hne, hcol⟩
        rcases List.mem_cons.mp hc with h | h
        · subst h; exact absurd hb hne
        · exact ⟨c, h, hne, hcol⟩
    · by_cases hcol : ':' ∈ b.data
      · obtain ⟨k, v, _, _, hs⟩ := SplitN_colon_exists b hcol
        rw [parseKeyValueLines_pair b k v bs p hb hs]
        obtain ⟨h1, h2, h3⟩ := ih (p.Store k v)
        refine ⟨?_, h2, h3⟩
        rw [h1]
        constructor
        · rintro ⟨c, hc, hne, hcol'⟩
          exact ⟨c, List.mem_cons_of_mem _ hc, hne, hcol'⟩
        · rintro ⟨c, hc, hne, hcol'⟩
          rcases List.mem_cons.mp hc with h | h
          · subst h; exact absurd hcol hcol'
          · exact ⟨c, h, hne, hcol'⟩
      · rw [parseKeyValueLines_bad b bs p hb hcol]
        refine ⟨⟨fun _ => ⟨b, List.mem_cons_self _ _, hb, hcol⟩, fun _ => by simp⟩,
          fun _ => rfl, fun h => by simp at h⟩

theorem splitGo_ne_nil (sep : List Char) (l : List Char) :
    ∀ skip lim, splitGo sep l skip lim ≠ [] := by
  induction l with
  | nil => intro skip lim; rw [splitGo]; simp
  | cons c cs ih =>
    intro skip lim
    cases skip with
    | succ skip => rw [splitGo]; exact ih skip lim
    | zero =>
      cases lim with
      | zero => rw [splitGo]; simp
      | succ lim =>
        rw [splitGo]
        split
        · simp
        · split <;> simp

/-- The pieces `Split` cuts at a one-character separator do not contain the
separator, there is at least one piece, and the pieces joined by the separator
give the text back. -/
theorem splitGo_pieces (s : Char) (l : List Char) :
    ∀ lim, l.length ≤ lim →
      (∀ piece ∈ splitGo [s] l 0 lim, s ∉ piece) ∧
      [s].intercalate (splitGo [s] l 0 lim) = l := by
  induction l with
  | nil => intro lim _; simp [splitGo, List.intercalate]
  | cons c cs ih =>
    intro lim hlim
    cases lim with
    | zero => simp at hlim
    | succ lim =>
      have hlen : cs.length ≤ lim := by simpa using hlim
      by_cases hc : c = s
      · subst hc
        rw [splitGo_cons_sep]
        obtain ⟨h1, h2⟩ := ih lim hlen
        refine ⟨?_, ?_⟩
        · intro piece hp
          rcases List.mem_cons.mp hp with h | h
          · subst h; simp
          · exact h1 piece h
        · cases hsp : splitGo [c] cs 0 lim with
          | nil => exact absurd hsp (splitGo_ne_nil _ _ _ _)
          | cons q qs =>
            rw [hsp] at h2
            simp only [List.intercalate, List.intersperse, List.flatten] at h2 ⊢
            simp [← h2]
      · rw [splitGo_cons_other s c cs lim hc]
        obtain ⟨h1, h2⟩ := ih (lim + 1) (Nat.le_succ_of_le hlen)
        cases hsp : splitGo [s] cs 0 (lim + 1) with
        | nil => exact absurd hsp (splitGo_ne_nil _ _ _ _)
        | cons q qs =>
          rw [hsp] at h1 h2
          refine ⟨?_, ?_⟩
          · intro piece hp
            rcases List.mem_cons.mp hp with h | h
            · subst h
              intro hm
              rcases List.mem_cons.mp hm with h' | h'
              · exact hc h'.symm
              · exact h1 q (List.mem_cons_self _ _) h'
            · exact h1 piece (List.mem_cons_of_mem _ h)
          · simp only
            cases qs with
            | nil => simp [List.intercalate] at h2 ⊢; exact h2
            | cons r rs =>
              simp only [List.intercalate, List.intersperse, List.flatten] at h2 ⊢
              simp [← h2]

/-- The writer's content after a run of `writeKeyValuePair`: what it held
before, followed by what the run writes to an empty writer. -/
theorem written_pairs_data (kvs : List (String × String)) :
    ∀ w : String, (kvs.foldl (fun w kv => writeKeyValuePair w kv.1 kv.2) w).data
      = w.data ++ (kvs.foldl (fun w kv => writeKeyValuePair w kv.1 kv.2) "").data := by
  induction kvs with
  | nil => intro w; simp
  | cons kv rest ih =>
    intro w
    rw [List.foldl_cons, List.foldl_cons, ih (writeKeyValuePair w kv.1 kv.2),
      ih (writeKeyValuePair "" kv.1 kv.2)]
    simp [writeKeyValuePair, String.data_append]

theorem written_pairs_cons_data (kv : String × String) (rest : List (String × String)) :
    ((kv :: rest).foldl (fun w kv => writeKeyValuePair w kv.1 kv.2) "").data
      = (kv.1.data ++ ':' :: kv.2.data) ++ '\n' ::
          (rest.foldl (fun w kv => writeKeyValuePair w kv.1 kv.2) "").data := by
  rw [List.foldl_cons, written_pairs_data]
  simp [writeKeyValuePair, String.data_append]

theorem written_pairs_length (kvs : List (String × String)) :
    kvs.length ≤ (kvs.foldl (fun w kv => writeKeyValuePair w kv.1 kv.2) "").data.length := by
  induction kvs with
  | nil => simp
  | cons kv rest ih =>
    rw [written_pairs_cons_data]
    simp only [List.length_append, List.length_cons]
    omega

/-- The lines `Split` reads back from what `writeKeyValuePair` wrote. -/
theorem split_written_pairs (kvs : List (String × String))
    (hkeys : ∀ kv ∈ kvs, '\n' ∉ kv.1.data) (hvals : ∀ kv ∈ kvs, '\n' ∉ kv.2.data) :
    ∀ lim, kvs.length ≤ lim →
      splitGo ['\n'] (kvs.foldl (fun w kv => writeKeyValuePair w kv.1 kv.2) "").data 0 lim
        = kvs.map (fun (kv : String × String) => kv.1.data ++ ':' :: kv.2.data) ++ [[]] := by
  induction kvs with
  | nil => intro lim _; simp [splitGo]
  | cons kv rest ih =>
    intro lim hlim
    cases lim with
    | zero => simp at hlim
    | succ lim =>
      rw [written_pairs_cons_data, splitGo_before_sep]
      · rw [ih (fun x hx => hkeys x (List.mem_cons_of_mem _ hx))
          (fun x hx => hvals x (List.mem_cons_of_mem _ hx)) lim (by simpa using hlim)]
        simp
      · intro hm
        rcases List.mem_append.mp hm with h | h
        · exact hkeys kv (List.mem_cons_self _ _) h
        · rcases List.mem_cons.mp h with h' | h'
          · exact absurd h' (by decide)
          · exact hvals kv (List.mem_cons_self _ _) h'

/-- The loop of `parseKeyValue` on the lines of pairs with colon-free keys. -/
theorem parseKeyValueLines_written (kvs : List (String × String))
    (hkeys : ∀ kv ∈ kvs, ':' ∉ kv.1.data) :
    ∀ p : GoMap String,
      parseKeyValueLines
          ((kvs.map (fun (kv : String × String) => kv.1.data ++ ':' :: kv.2.data)
            ++ [[]]).map String.mk) p
        = (some (kvs.foldl (fun p kv => p.Store kv.1 kv.2) p), none) := by
  induction kvs with
  | nil =>
    intro p
    simp only [List.map_nil, List.nil_append, List.map_cons, List.foldl_nil]
    rw [parseKeyValueLines_skip _ _ _ rfl, parseKeyValueLines]
  | cons kv rest ih =>
    intro p
    simp only [List.map_cons, List.cons_append, List.foldl_cons]
    have hline : String.mk (kv.1.data ++ ':' :: kv.2.data) = kv.1 ++ ":" ++ kv.2 := by
      apply String.ext
      simp [String.data_append]
    rw [hline, parseKeyValueLines_pair _ kv.1 kv.2 _ _ _
      (SplitN_colon_of_mem kv.1 kv.2 (hkeys kv (List.mem_cons_self _ _)))]
    · have := ih (fun x hx => hkeys x (List.mem_cons_of_mem _ hx)) (p.Store kv.1 kv.2)
      simpa using this
    · simp [String.data_append]

/-- After a run of assignments a key holds the value of its last assignment,
or what it held before when the run does not assign it. -/
theorem Load_foldl_Store (kvs : List (String × String)) (k : String) :
    ∀ p : GoMap String,
      (kvs.foldl (fun p kv => p.Store kv.1 kv.2) p).Load k
        = match kvs.reverse.find? (fun kv => kv.1 == k) with
          | some kv => some kv.2
          | none => p.Load k := by
  induction kvs with
  | nil => intro p; simp
  | cons kv rest ih =>
    intro p
    rw [List.foldl_cons, ih, List.reverse_cons, List.find?_append]
    cases hf : rest.reverse.find? (fun kv => kv.1 == k) with
    | some x => simp
    | none =>
      by_cases hk : kv.1 = k
      · subst hk
        simp [GoMap.Load_Store_self]
      · have : (kv.1 == k) = false := by simpa using hk
        simp [List.find?_cons, this, GoMap.Load_Store_ne _ _ _ _ (Ne.symm hk)]

/-! ## Lemmas on `parseHTTP` -/


theorem HasPrefix_append (pre s : String) : HasPrefix (pre ++ s) pre = true := by
  simp [HasPrefix, String.data_append]

theorem eq_append_TrimPrefix (s pre : String) (h : HasPrefix s pre = true) :
    s = pre ++ TrimPrefix s pre := by
  apply String.ext
  simp only [TrimPrefix, h, if_true, String.data_append]
  have hp : pre.data <+: s.data := List.isPrefixOf_iff_prefix.mp h
  obtain ⟨t, ht⟩ := hp
  rw [← ht]
  simp

theorem String_append_left_cancel (a b c : String) (h : a ++ b = a ++ c) : b = c := by
  apply String.ext
  have := congrArg String.data h
  simpa [String.data_append] using this

/-- One step of the loop of `parseHTTP`, seen from the key `k`. -/
theorem parseHTTP_step_Load (p : GoMap String) (e : String × List String) (k : String) :
    (match e.2 with
      | [] => p
      | v0 :: _ =>
        if HasPrefix e.1 "openid." then p.Store (TrimPrefix e.1 "openid.") v0 else p).Load k
      = if e.1 = "openid." ++ k then (match e.2 with
          | [] => p.Load k
          | v0 :: _ => some v0)
        else p.Load k := by
  obtain ⟨ek, ev⟩ := e
  cases ev with
  | nil => simp
  | cons v0 vs =>
    simp only
    by_cases hp : HasPrefix ek "openid." = true
    · rw [if_pos hp]
      have hek := eq_append_TrimPrefix ek "openid." hp
      by_cases hk : TrimPrefix ek "openid." = k
      · rw [if_pos (by rw [← hk]; exact hek), hk, GoMap.Load_Store_self]
      · have hne : ¬ ek = "openid." ++ k := fun h =>
          hk (String_append_left_cancel "openid." _ _ (hek.symm.trans h))
        rw [if_neg hne, GoMap.Load_Store_ne _ _ _ _ (Ne.symm hk)]
    · have hne : ¬ ek = "openid." ++ k := fun h =>
        hp (by rw [h]; exact HasPrefix_append "openid." k)
      rw [if_neg hp, if_neg hne]

/-- The loop of `parseHTTP` over key-unique entries, seen from the key `k`. -/
theorem parseHTTP_fold_Load (k : String) (l : List (String × List String)) :
    (l.map Prod.fst).Nodup → ∀ p : GoMap String,
      (l.foldl
        (fun (p : GoMap String) (kv : String × List String) =>
          match kv.2 with
          | [] => p
          | v0 :: _ =>
            if HasPrefix kv.1 "openid." then p.Store (TrimPrefix kv.1 "openid.") v0 else p)
        p).Load k
      = match (l.find? (fun e => e.1 == "openid." ++ k)).map Prod.snd with
        | some (v0 :: _) => some v0
        | _ => p.Load k := by
  induction l with
  | nil => intro _ p; simp
  | cons e l ih =>
    intro hnd p
    simp only [List.map_cons, List.nodup_cons] at hnd
    rw [List.foldl_cons, ih hnd.2, parseHTTP_step_Load, List.find?_cons]
    by_cases hk : e.1 = "openid." ++ k
    · have hnone : l.find? (fun e => e.1 == "openid." ++ k) = none :=
        GoMap.find_none_of_not_mem_keys l _ (hk ▸ hnd.1)
      have hb : (e.1 == "openid." ++ k) = true := by simpa using hk
      rw [hnone, if_pos hk, hb]
      obtain ⟨ek, ev⟩ := e
      cases ev <;> simp
    · have hb : (e.1 == "openid." ++ k) = false := by simpa using hk
      rw [if_neg hk, hb]

theorem parseHTTP_Load (v : Values) (k : String) :
    (parseHTTP v).Load k = (v.Load ("openid." ++ k)).bind List.head? := by
  unfold parseHTTP
  rw [parseHTTP_fold_Load k v.entries v.nodup GoMap.empty]
  unfold GoMap.Load
  cases (v.entries.find? (fun e => e.1 == "openid." ++ k)).map Prod.snd with
  | none => simp [GoMap.empty]
  | some vs => cases vs <;> simp [GoMap.empty]

/-! ## Lemmas on `CheckIDSetup` -/


theorem CheckIDSetup_of_none (o o' : OpenID) (endpoint callbackPrefix : String)
    (optional : List String) (now : Time) (resp : Option String) (created : Time)
    (h : o.associate endpoint now resp created = (o', none)) :
    o.CheckIDSetup endpoint callbackPrefix optional now resp created
      = (o', "", some Err.associateFailed) := by
  simp only [OpenID.CheckIDSetup, h]

theorem CheckIDSetup_of_some (o o' : OpenID) (endpoint callbackPrefix : String)
    (optional : List String) (now : Time) (resp : Option String) (created : Time)
    (assoc : Association) (h : o.associate endpoint now resp created = (o', some assoc)) :
    o.CheckIDSetup endpoint callbackPrefix optional now resp created
      = (o', endpoint ++ "?" ++ Encode (encodeHTTP GoMap.empty
          (checkIDSetupValues assoc.Handle o.realm callbackPrefix
            (optional.head?.getD "nickname,email,fullname"))), none) := by
  simp only [OpenID.CheckIDSetup, h]
  cases optional <;> rfl

/-! ## Lemmas on the base64 model -/


theorem enc6_facts : ∀ n : Fin 64,
    dec6 (enc6 n.val) = some n.val ∧ enc6 n.val ≠ '=' ∧ enc6 n.val ≠ '\n' ∧ enc6 n.val ≠ '\r' := by
  decide

theorem enc6_mod (n : Nat) : enc6 n = enc6 (n % 64) := by
  simp [enc6]

theorem dec6_enc6 (n : Nat) : dec6 (enc6 n) = some (n % 64) := by
  rw [enc6_mod]
  exact (enc6_facts ⟨n % 64, Nat.mod_lt _ (by decide)⟩).1

theorem enc6_ne_pad (n : Nat) : enc6 n ≠ '=' := by
  rw [enc6_mod]
  exact (enc6_facts ⟨n % 64, Nat.mod_lt _ (by decide)⟩).2.1

theorem enc6_ne_newline (n : Nat) : enc6 n ≠ '\n' ∧ enc6 n ≠ '\r' := by
  rw [enc6_mod]
  exact (enc6_facts ⟨n % 64, Nat.mod_lt _ (by decide)⟩).2.2

/-- The test vectors of RFC 4648, section 10. -/
theorem EncodeToString_rfc4648 :
    EncodeToString [] = "" ∧
    EncodeToString [102] = "Zg==" ∧
    EncodeToString [102, 111] = "Zm8=" ∧
    EncodeToString [102, 111, 111] = "Zm9v" ∧
    EncodeToString [102, 111, 111, 98] = "Zm9vYg==" ∧
    EncodeToString [102, 111, 111, 98, 97] = "Zm9vYmE=" ∧
    EncodeToString [102, 111, 111, 98, 97, 114] = "Zm9vYmFy" := by
  decide

/-- Decoding the encoding of bytes gives the bytes back. -/
theorem decodeQuanta_encodeGroups : ∀ (n : Nat) (src : List Nat), src.length ≤ n →
    decodeQuanta (encodeGroups src) = some (src.map (fun b => b % 256)) := by
  intro n
  induction n using Nat.strong_induction_on with
  | _ n ih =>
    intro src hlen
    match src with
    | [] => simp [encodeGroups, decodeQuanta]
    | [a] =>
      simp only [encodeGroups, decodeQuanta, dec6_enc6, List.map_cons, List.map_nil]
      simp
      omega
    | [a, b] =>
      simp only [encodeGroups, decodeQuanta, dec6_enc6, List.map_cons, List.map_nil]
      simp [enc6_ne_pad]
      omega
    | a :: b :: c :: rest =>
      have hrest := ih (n - 3) (by simp at hlen; omega) rest (by simp at hlen; omega)
      simp only [encodeGroups, decodeQuanta, dec6_enc6, List.map_cons]
      simp [enc6_ne_pad, hrest]
      omega

theorem encodeGroups_no_newline : ∀ (n : Nat) (src : List Nat), src.length ≤ n →
    ∀ c ∈ encodeGroups src, (!(c == '\n' || c == '\r')) = true := by
  intro n
  induction n using Nat.strong_induction_on with
  | _ n ih =>
    intro src hlen
    have hnl := fun k => (enc6_ne_newline k).1
    have hcr := fun k => (enc6_ne_newline k).2
    match src with
    | [] => simp [encodeGroups]
    | [a] =>
      intro c hc
      simp only [encodeGroups, List.mem_cons, List.mem_singleton, List.not_mem_nil,
        or_false] at hc
      rcases hc with h | h | h | h <;> subst h <;> simp [hnl, hcr]
    | [a, b] =>
      intro c hc
      simp only [encodeGroups, List.mem_cons, List.mem_singleton, List.not_mem_nil,
        or_false] at hc
      rcases hc with h | h | h | h <;> subst h <;> simp [hnl, hcr]
    | a :: b :: c :: rest =>
      intro x hx
      have hrest := ih (n - 3) (by simp at hlen; omega) rest (by simp at hlen; omega)
      simp only [encodeGroups, List.mem_cons] at hx
      rcases hx with h | h | h | h | h
      · subst h; simp [hnl, hcr]
      · subst h; simp [hnl, hcr]
      · subst h; simp [hnl, hcr]
      · subst h; simp [hnl, hcr]
      · exact hrest x h

/-- The decoder reads back what the encoder writes: `DecodeString` after
`EncodeToString` gives the bytes (each taken modulo 256). -/
theorem DecodeString_EncodeToString (src : List Nat) :
    DecodeString (EncodeToString src) = some (src.map (fun b => b % 256)) := by
  unfold DecodeString EncodeToString
  simp only
  rw [List.filter_eq_self.mpr (encodeGroups_no_newline src.length src (le_refl _))]
  exact decodeQuanta_encodeGroups src.length src (le_refl _)

/-! ## The claims on signing -/

/-- C11: for an association of a supported type, `sign` returns, without error,
the standard base64 encoding of the keyed digest (SHA-1 for `HMAC-SHA1`, SHA-256
for `HMAC-SHA256`), keyed with the association's secret, of the bytes its loop
writes; these bytes are the concatenation, in the order of the signed list, of
name, colon, `params[name]` and newline, a name absent from the mapping giving
an empty value; and the signature decodes, as standard base64, to the bytes of
that digest. -/
theorem sign_is_base64_hmac_of_lines (H : Hmac) (a : Association) (params : GoMap String)
    (signed : List String) :
    (a.Typ = "HMAC-SHA1" →
      a.sign H params signed
        = (EncodeToString (H.sha1 a.Secret (signedLines params signed)), none) ∧
      DecodeString (a.sign H params signed).1
        = some ((H.sha1 a.Secret (signedLines params signed)).map (fun b => b % 256))) ∧
    (a.Typ = "HMAC-SHA256" →
      a.sign H params signed
        = (EncodeToString (H.sha256 a.Secret (signedLines params signed)), none) ∧
      DecodeString (a.sign H params signed).1
        = some ((H.sha256 a.Secret (signedLines params signed)).map (fun b => b % 256))) ∧
    signedBytes params signed = signedLines params signed := by
  refine ⟨fun h => ?_, fun h => ?_, signedBytes_eq_signedLines params signed⟩
  · rw [sign_of_sha1 H a params signed h, signedBytes_eq_signedLines]
    exact ⟨rfl, DecodeString_EncodeToString _⟩
  · rw [sign_of_sha256 H a params signed h, signedBytes_eq_signedLines]
    exact ⟨rfl, DecodeString_EncodeToString _⟩

/-- C16: when the value of one name of the signed list is changed and the
values of all other names are kept, the bytes over which `sign` computes the
keyed digest change; for a supported type both signatures are the base64
encoding of the digest of these two different byte strings. -/
theorem changed_signed_value_changes_bytes (H : Hmac) (a : Association)
    (p p' : GoMap String) (signed : List String) (k : String)
    (hsup : a.Typ = "HMAC-SHA1" ∨ a.Typ = "HMAC-SHA256")
    (hk : k ∈ signed) (hne : p'.index k ≠ p.index k)
    (hrest : ∀ n, n ≠ k → p'.index n = p.index n) :
    signedBytes p' signed ≠ signedBytes p signed ∧
    ∃ digest : String → List Nat,
      (digest = H.sha1 a.Secret ∨ digest = H.sha256 a.Secret) ∧
      a.sign H p signed = (EncodeToString (digest (signedBytes p signed)), none) ∧
      a.sign H p' signed = (EncodeToString (digest (signedBytes p' signed)), none) := by
  refine ⟨?_, ?_⟩
  · rw [signedBytes_eq_signedLines, signedBytes_eq_signedLines]
    exact signedLines_ne_of_changed_value p p' k hne hrest signed hk
  · rcases hsup with h | h
    · exact ⟨H.sha1 a.Secret, Or.inl rfl, sign_of_sha1 H a p signed h,
        sign_of_sha1 H a p' signed h⟩
    · exact ⟨H.sha256 a.Secret, Or.inr rfl, sign_of_sha256 H a p signed h,
        sign_of_sha256 H a p' signed h⟩

/-- With `identity` changed from `alice` to `bob` the signed bytes of
`op_endpoint,identity` differ. -/
theorem changed_signed_value_changes_bytes_witness :
    (sampleAssoc.Typ = "HMAC-SHA1" ∨ sampleAssoc.Typ = "HMAC-SHA256") ∧
    "identity" ∈ ["op_endpoint", "identity"] ∧
    (plainParams.Store "identity" "bob").index "identity" ≠ plainParams.index "identity" ∧
    signedBytes (plainParams.Store "identity" "bob") ["op_endpoint", "identity"]
      ≠ signedBytes plainParams ["op_endpoint", "identity"] :=
  ⟨Or.inr rfl, by decide, by decide,
    (changed_signed_value_changes_bytes sampleHmac sampleAssoc plainParams
      (plainParams.Store "identity" "bob") ["op_endpoint", "identity"] "identity"
      (Or.inr rfl) (by decide) (by decide)
      (fun n hn => by
        unfold GoMap.index
        rw [GoMap.Load_Store_ne _ _ _ _ hn])).1⟩

/-- C17 (as stated, refuted): a reordering of pairwise distinct names into a
different list can leave the signed bytes as they are.  With the names `x` and
`x:y` and the values `y:z` and `z` both orders give the same two lines, and so
the same signature under every digest and every association. -/
theorem reordering_can_keep_signed_bytes :
    (¬ ∀ (p : GoMap String) (l1 l2 : List String), l1.Nodup → l1.Perm l2 → l1 ≠ l2 →
        signedBytes p l2 ≠ signedBytes p l1) ∧
    signedBytes colonParams ["x:y", "x"] = signedBytes colonParams ["x", "x:y"] ∧
    ∀ (H : Hmac) (a : Association),
      a.sign H colonParams ["x:y", "x"] = a.sign H colonParams ["x", "x:y"] := by
  have hb : signedBytes colonParams ["x:y", "x"] = signedBytes colonParams ["x", "x:y"] := by
    decide
  refine ⟨fun hall => ?_, hb, fun H a => ?_⟩
  · exact hall colonParams ["x", "x:y"] ["x:y", "x"] (by decide)
      (List.Perm.swap "x:y" "x" []) (by decide) hb
  · unfold Association.sign
    have hb' := hb
    unfold signedBytes at hb'
    rw [hb']

/-- C17 (amended): for a signed list of pairwise distinct names none of which
contains a colon, every reordering into a different list changes the bytes over
which `sign` computes the keyed digest, whatever the values are. -/
theorem reordering_changes_signed_bytes (p : GoMap String) (l1 l2 : List String)
    (hnodup : l1.Nodup) (hperm : l1.Perm l2) (hne : l1 ≠ l2)
    (hcolon : ∀ n ∈ l1, ':' ∉ n.data) :
    signedBytes p l2 ≠ signedBytes p l1 := by
  have _ := hnodup
  intro heq
  rw [signedBytes_eq_signedLines, signedBytes_eq_signedLines] at heq
  exact hne (signedLines_injective p l1 l2 hcolon
    (fun n hn => hcolon n (hperm.symm.subset hn)) heq.symm)

/-- The two orders of `op_endpoint` and `identity` give different bytes. -/
theorem reordering_changes_signed_bytes_witness :
    (["op_endpoint", "identity"].Nodup ∧
      ["op_endpoint", "identity"].Perm ["identity", "op_endpoint"] ∧
      ["op_endpoint", "identity"] ≠ ["identity", "op_endpoint"] ∧
      ∀ n ∈ ["op_endpoint", "identity"], ':' ∉ n.data) ∧
    signedBytes plainParams ["identity", "op_endpoint"]
      ≠ signedBytes plainParams ["op_endpoint", "identity"] :=
  ⟨⟨by decide, List.Perm.swap _ _ _, by decide, by decide⟩,
    reordering_changes_signed_bytes plainParams ["op_endpoint", "identity"]
      ["identity", "op_endpoint"] (by decide) (List.Perm.swap _ _ _) (by decide) (by decide)⟩

/-- C18: `sign` is a function of its inputs, and of the parameter mapping it
reads only the values of the signed names: two mappings that agree on every
name of the signed list give the same result, signature and error. -/
theorem sign_reads_only_signed_fields (H : Hmac) (a : Association) (p p' : GoMap String)
    (signed : List String) (h : ∀ k ∈ signed, p.index k = p'.index k) :
    a.sign H p signed = a.sign H p' signed :=
  sign_congr H a p p' signed h

/-- A mapping with one more, unsigned, entry gives the same signature. -/
theorem sign_reads_only_signed_fields_witness :
    (∀ k ∈ ["op_endpoint", "identity"],
      plainParams.index k = (plainParams.Store "email" "a@b").index k) ∧
    sampleAssoc.sign sampleHmac plainParams ["op_endpoint", "identity"]
      = sampleAssoc.sign sampleHmac (plainParams.Store "email" "a@b")
          ["op_endpoint", "identity"] :=
  ⟨by decide,
    sign_reads_only_signed_fields sampleHmac sampleAssoc plainParams
      (plainParams.Store "email" "a@b") ["op_endpoint", "identity"] (by decide)⟩

/-- C20: `IDRes` checks only what the provider signed.  For two queries whose
decoded parameters agree on `op_endpoint`, `signed`, `sig` and every name listed
in `signed`, `IDRes` gives the same error or no error for both and leaves the
same store; when it accepts, each returned mapping is the decoded mapping of
its own request, so every parameter that `signed` does not name is passed
through with that request's own value. -/
theorem IDRes_checks_only_signed_fields (H : Hmac) (o : OpenID) (q1 q2 : Values) (now : Time)
    (hep : (parseHTTP q1).index "op_endpoint" = (parseHTTP q2).index "op_endpoint")
    (hsigned : (parseHTTP q1).index "signed" = (parseHTTP q2).index "signed")
    (hsig : (parseHTTP q1).index "sig" = (parseHTTP q2).index "sig")
    (hfields : ∀ k ∈ Split ((parseHTTP q1).index "signed") ",",
      (parseHTTP q1).index k = (parseHTTP q2).index k) :
    (o.IDRes H q1 now).2.2 = (o.IDRes H q2 now).2.2 ∧
    (o.IDRes H q1 now).1 = (o.IDRes H q2 now).1 ∧
    ((o.IDRes H q1 now).2.2 = none →
      (o.IDRes H q1 now).2.1 = some (parseHTTP q1) ∧
      (o.IDRes H q2 now).2.1 = some (parseHTTP q2) ∧
      ∀ k, ((o.IDRes H q1 now).2.1.getD GoMap.empty).index k = (parseHTTP q1).index k ∧
        ((o.IDRes H q2 now).2.1.getD GoMap.empty).index k = (parseHTTP q2).index k) ∧
    ((o.IDRes H q1 now).2.2 ≠ none →
      (o.IDRes H q1 now).2.1 = none ∧ (o.IDRes H q2 now).2.1 = none) := by
  rcases hget : o.assocs.get ((parseHTTP q1).index "op_endpoint") now with ⟨as, r⟩
  have hget2 : o.assocs.get ((parseHTTP q2).index "op_endpoint") now = (as, r) := by
    rw [← hep]; exact hget
  cases r with
  | none =>
    rw [IDRes_of_get_none H o q1 now as hget, IDRes_of_get_none H o q2 now as hget2, hep]
    simp
  | some a =>
    rw [IDRes_of_get_some H o q1 now as a hget, IDRes_of_get_some H o q2 now as a hget2]
    have hc : a.sign H (parseHTTP q2) (Split ((parseHTTP q2).index "signed") ",")
        = a.sign H (parseHTTP q1) (Split ((parseHTTP q1).index "signed") ",") := by
      rw [← hsigned]
      exact (sign_congr H a _ _ _ hfields).symm
    rw [hc, ← hsig, ← hep]
    rcases a.sign H (parseHTTP q1) (Split ((parseHTTP q1).index "signed") ",") with ⟨s, e⟩
    cases e with
    | some err => simp
    | none =>
      by_cases hs : s = (parseHTTP q1).index "sig"
      · simp [hs]
      · simp [hs]

/-- Two correctly signed requests that differ in the unsigned `openid.email`
are both accepted, each with its own `email`. -/
theorem IDRes_checks_only_signed_fields_witness :
    ((parseHTTP (sampleQueryEmail "alice@op")).index "op_endpoint"
        = (parseHTTP (sampleQueryEmail "mallory@x")).index "op_endpoint" ∧
      (parseHTTP (sampleQueryEmail "alice@op")).index "signed"
        = (parseHTTP (sampleQueryEmail "mallory@x")).index "signed" ∧
      (parseHTTP (sampleQueryEmail "alice@op")).index "sig"
        = (parseHTTP (sampleQueryEmail "mallory@x")).index "sig" ∧
      ∀ k ∈ Split ((parseHTTP (sampleQueryEmail "alice@op")).index "signed") ",",
        (parseHTTP (sampleQueryEmail "alice@op")).index k
          = (parseHTTP (sampleQueryEmail "mallory@x")).index k) ∧
    (sampleRP.IDRes sampleHmac (sampleQueryEmail "alice@op") 50).2.2 = none ∧
    (sampleRP.IDRes sampleHmac (sampleQueryEmail "mallory@x") 50).2.2 = none ∧
    ((sampleRP.IDRes sampleHmac (sampleQueryEmail "mallory@x") 50).2.1.getD GoMap.empty).index
      "email" = "mallory@x" ∧
    (sampleRP.IDRes sampleHmac (sampleQueryEmail "alice@op") 50).2.2
      = (sampleRP.IDRes sampleHmac (sampleQueryEmail "mallory@x") 50).2.2 :=
  ⟨⟨by decide, by decide, by decide, by decide⟩, by decide, by decide, by decide,
    (IDRes_checks_only_signed_fields sampleHmac sampleRP (sampleQueryEmail "alice@op")
      (sampleQueryEmail "mallory@x") 50 (by decide) (by decide) (by decide) (by decide)).1⟩

/-! ## The claims on the codec -/

/-- C12: `parseKeyValue` fails exactly when, after the payload is split on
newlines, some line that is not empty contains no colon; empty lines are
skipped.  A failure returns no mapping, a success returns one.  The pieces of
the split are the newline-free runs of the payload.  The payload `badline`
fails, the payload of two well-formed lines succeeds. -/
theorem parseKeyValue_fails_iff (body : String) :
    ((parseKeyValue body).2 ≠ none ↔
      ∃ b ∈ Split body "\n", b.data ≠ [] ∧ ':' ∉ b.data) ∧
    ((parseKeyValue body).2 ≠ none → (parseKeyValue body).1 = none) ∧
    ((parseKeyValue body).2 = none → (parseKeyValue body).1 ≠ none) ∧
    ((∀ b ∈ Split body "\n", '\n' ∉ b.data) ∧
      ['\n'].intercalate ((Split body "\n").map String.data) = body.data) ∧
    parseKeyValue "badline" = (none, some (Err.invalidLine "badline")) ∧
    (parseKeyValue "assoc_handle:ABC\nexpires_in:3600\n").2 = none := by
  obtain ⟨h1, h2, h3⟩ := parseKeyValueLines_spec (Split body "\n") GoMap.empty
  refine ⟨h1, h2, h3, ?_, by decide, by decide⟩
  have hsplit : Split body "\n"
      = (splitGo ['\n'] body.data 0 body.data.length).map String.mk := by
    simp [Split]
  obtain ⟨hp, hj⟩ := splitGo_pieces '\n' body.data body.data.length (le_refl _)
  rw [hsplit]
  refine ⟨?_, ?_⟩
  · intro b hb
    obtain ⟨piece, hpiece, rfl⟩ := List.mem_map.mp hb
    exact hp piece hpiece
  · rw [List.map_map]
    have : (String.data ∘ String.mk) = id := by funext l; rfl
    rw [this, List.map_id]
    exact hj

/-- C13: for pairs whose keys contain neither a colon nor a newline and whose
values contain no newline, `parseKeyValue` applied to what `writeKeyValuePair`
writes for the pairs, one after the other, succeeds, and the mapping it returns
holds under each key the value of the last pair with that key, and nothing
under any other key. -/
theorem parseKeyValue_of_written_pairs (kvs : List (String × String))
    (hkeys : ∀ kv ∈ kvs, ':' ∉ kv.1.data ∧ '\n' ∉ kv.1.data)
    (hvals : ∀ kv ∈ kvs, '\n' ∉ kv.2.data) :
    ∃ p : GoMap String,
      parseKeyValue (kvs.foldl (fun w kv => writeKeyValuePair w kv.1 kv.2) "")
        = (some p, none) ∧
      ∀ k, p.Load k = (kvs.reverse.find? (fun kv => kv.1 == k)).map Prod.snd := by
  refine ⟨kvs.foldl (fun p kv => p.Store kv.1 kv.2) GoMap.empty, ?_, ?_⟩
  · have hsplit : Split (kvs.foldl (fun w kv => writeKeyValuePair w kv.1 kv.2) "") "\n"
        = ((kvs.map (fun (kv : String × String) => kv.1.data ++ ':' :: kv.2.data)
            ++ [[]]).map String.mk) := by
      have hs := split_written_pairs kvs (fun kv h => (hkeys kv h).2) hvals _
        (written_pairs_length kvs)
      simp only [Split]
      rw [if_neg (by decide)]
      exact congrArg (List.map String.mk) hs
    rw [parseKeyValue, hsplit]
    exact parseKeyValueLines_written kvs (fun kv h => (hkeys kv h).1) GoMap.empty
  · intro k
    rw [Load_foldl_Store]
    cases kvs.reverse.find? (fun kv => kv.1 == k) with
    | some kv => rfl
    | none => rfl

/-- The pairs `assoc_handle`, `ABC` and `expires_in`, `3600` are written as two
lines and read back as the mapping with these two entries. -/
theorem parseKeyValue_of_written_pairs_witness :
    ((∀ kv ∈ [("assoc_handle", "ABC"), ("expires_in", "3600")],
        ':' ∉ kv.1.data ∧ '\n' ∉ kv.1.data) ∧
      (∀ kv ∈ [("assoc_handle", "ABC"), ("expires_in", "3600")], '\n' ∉ kv.2.data)) ∧
    [("assoc_handle", "ABC"), ("expires_in", "3600")].foldl
        (fun w kv => writeKeyValuePair w kv.1 kv.2) ""
      = "assoc_handle:ABC\nexpires_in:3600\n" ∧
    (parseKeyValue "assoc_handle:ABC\nexpires_in:3600\n").1.map GoMap.entries
      = some [("expires_in", "3600"), ("assoc_handle", "ABC")] ∧
    ∃ p : GoMap String,
      parseKeyValue ([("assoc_handle", "ABC"), ("expires_in", "3600")].foldl
          (fun w kv => writeKeyValuePair w kv.1 kv.2) "") = (some p, none) ∧
      ∀ k, p.Load k = (([("assoc_handle", "ABC"), ("expires_in", "3600")] :
          List (String × String)).reverse.find? (fun kv => kv.1 == k)).map Prod.snd :=
  ⟨⟨by decide, by decide⟩, by decide, by decide,
    parseKeyValue_of_written_pairs [("assoc_handle", "ABC"), ("expires_in", "3600")]
      (by decide) (by decide)⟩

/-- C14 (as stated, refuted): a key of the container does not always give a
key of the result.  The container `emptyValueQuery` holds `openid.x` with an
empty list of values, and `parseHTTP` of it has no key `x`. -/
theorem parseHTTP_drops_key_without_value :
    ¬ ∀ (v : Values) (k : String),
        ((parseHTTP v).Load k).isSome ↔ (v.Load ("openid." ++ k)).isSome := by
  intro hall
  have h := hall emptyValueQuery "x"
  revert h
  decide

/-- C14 (amended): `parseHTTP v` has a key `k` exactly when `v` holds the key
`openid.` followed by `k` with at least one value; the value at `k` is the
first of these values; a key of `v` that does not start with `openid.`
contributes nothing (removing it from `v` changes no lookup of the result).
`parseHTTP` is a function of `v` that builds a new mapping, `v` is not written. -/
theorem parseHTTP_spec (v : Values) :
    (∀ k, (parseHTTP v).Load k = (v.Load ("openid." ++ k)).bind List.head?) ∧
    (∀ k, ((parseHTTP v).Load k).isSome ↔
      ∃ x xs, v.Load ("openid." ++ k) = some (x :: xs)) ∧
    (∀ k x xs, v.Load ("openid." ++ k) = some (x :: xs) → (parseHTTP v).Load k = some x) ∧
    (∀ k0, HasPrefix k0 "openid." = false →
      ∀ k, (parseHTTP (v.Delete k0)).Load k = (parseHTTP v).Load k) := by
  refine ⟨parseHTTP_Load v, ?_, ?_, ?_⟩
  · intro k
    rw [parseHTTP_Load]
    cases hv : v.Load ("openid." ++ k) with
    | none => simp
    | some vs => cases vs <;> simp
  · intro k x xs h
    rw [parseHTTP_Load, h]
    rfl
  · intro k0 hk0 k
    rw [parseHTTP_Load, parseHTTP_Load]
    have hne : "openid." ++ k ≠ k0 := by
      intro h
      rw [← h, HasPrefix_append] at hk0
      cases hk0
    rw [GoMap.Load_Delete_ne v k0 _ hne]

/-! ## The claim on `CheckIDSetup` -/

/-- C15: `CheckIDSetup` fails exactly when `associate` fails, and then returns
the empty URL with the error.  When `associate` returns an association, the
URL is the endpoint, a question mark and `Encode` of a query container that
holds exactly nine keys, each with one value: `openid.mode` is `checkid_setup`,
`openid.ns` is `Namespace`, `openid.assoc_handle` is the handle of that
association, `openid.realm` is the configured realm, `openid.return_to` is the
realm followed by `callbackPrefix`, `openid.claimed_id` is `ClaimedID`,
`openid.identity` is `Identity`, `openid.ns.sreg` is `NSSreg`, and
`openid.sreg.required` is the first optional argument when there is one and
`nickname,email,fullname` otherwise. -/
theorem CheckIDSetup_spec (o : OpenID) (endpoint callbackPrefix : String)
    (optional : List String) (now : Time) (resp : Option String) (created : Time) :
    ((o.CheckIDSetup endpoint callbackPrefix optional now resp created).2.2 ≠ none ↔
      (o.associate endpoint now resp created).2 = none) ∧
    ((o.associate endpoint now resp created).2 = none →
      o.CheckIDSetup endpoint callbackPrefix optional now resp created
        = ((o.associate endpoint now resp created).1, "", some Err.associateFailed)) ∧
    ∀ assoc, (o.associate endpoint now resp created).2 = some assoc →
      ∃ v : Values,
        o.CheckIDSetup endpoint callbackPrefix optional now resp created
          = ((o.associate endpoint now resp created).1, endpoint ++ "?" ++ Encode v, none) ∧
        v.entries.length = 9 ∧
        v.Load "openid.mode" = some ["checkid_setup"] ∧
        v.Load "openid.ns" = some [Namespace] ∧
        v.Load "openid.assoc_handle" = some [assoc.Handle] ∧
        v.Load "openid.realm" = some [o.realm] ∧
        v.Load "openid.return_to" = some [o.realm ++ callbackPrefix] ∧
        v.Load "openid.claimed_id" = some [ClaimedID] ∧
        v.Load "openid.identity" = some [Identity] ∧
        v.Load "openid.ns.sreg" = some [NSSreg] ∧
        v.Load "openid.sreg.required"
          = some [optional.head?.getD "nickname,email,fullname"] := by
  rcases ha : o.associate endpoint now resp created with ⟨o', r⟩
  cases r with
  | none =>
    rw [CheckIDSetup_of_none o o' endpoint callbackPrefix optional now resp created ha]
    simp
  | some a =>
    rw [CheckIDSetup_of_some o o' endpoint callbackPrefix optional now resp created a ha]
    refine ⟨by simp, by simp, ?_⟩
    intro assoc hassoc
    have haa : a = assoc := Option.some.inj hassoc
    subst haa
    exact ⟨encodeHTTP GoMap.empty (checkIDSetupValues a.Handle o.realm callbackPrefix
        (optional.head?.getD "nickname,email,fullname")),
      rfl, rfl, rfl, rfl, rfl, rfl, rfl, rfl, rfl, rfl, rfl⟩

set_option maxRecDepth 100000 in
/-- The URL `CheckIDSetup` builds for `sampleRP` at instant 50, when the store
holds the association with handle `h1`. -/
theorem CheckIDSetup_sample_url :
    (sampleRP.CheckIDSetup "https://op/" "/openid/verify" [] 50 none 60).2 =
      ("https://op/?openid.assoc_handle=h1&openid.claimed_id=http%3A%2F%2Fspecs.openid.net%2Fauth%2F2.0%2Fidentifier&openid.identity=http%3A%2F%2Fspecs.openid.net%2Fauth%2F2.0%2Fidentifier_select&openid.mode=checkid_setup&openid.ns=http%3A%2F%2Fspecs.openid.net%2Fauth%2F2.0&openid.ns.sreg=http%3A%2F%2Fopenid.net%2Fextensions%2Fsreg%2F1.1&openid.realm=https%3A%2F%2Frp&openid.return_to=https%3A%2F%2Frp%2Fopenid%2Fverify&openid.sreg.required=nickname%2Cemail%2Cfullname",
        none) ∧
    (sampleRP.CheckIDSetup "https://op/" "/openid/verify" ["email"] 100 none 160).2 =
      ("", some Err.associateFailed) := by
  decide

end openid

/-! ## The login handler -/

namespace login

theorem path_ne (p a b : String) (h : a ≠ b) : p ++ a ≠ p ++ b :=
  fun he => h (openid.String_append_left_cancel p a b he)

/-- The entry of the user in the session after `ServeHTTP`, for a request that
has a session. -/
theorem ServeHTTP_session (H : openid.Hmac) (o : OpenID) (r : Request) (now : openid.Time)
    (resp : Option String) (created : openid.Time) (s : Session) (hs : r.session = some s) :
    ∃ s', (o.ServeHTTP H r now resp created).2.1 = some s' ∧
      s'.Load sesKeyOpenID =
        if (r.Method = "GET" ∨ r.Method = "HEAD") ∧ r.Path = o.pathPrefix ++ "/logout" then none
        else if (r.Method = "GET" ∨ r.Method = "HEAD") ∧ r.Path = o.pathPrefix ++ "/verify" ∧
            (o.openid.IDRes H r.Query now).2.2 = none then
          some (SessionValue.user (o.openid.IDRes H r.Query now).2.1)
        else s.Load sesKeyOpenID := by
  have hkeys : sesKeyOpenID ≠ sesKeyRedirect := by decide
  unfold OpenID.ServeHTTP
  rw [hs]
  by_cases hm : r.Method = "GET" ∨ r.Method = "HEAD"
  · have hm' : ¬ (r.Method ≠ "GET" ∧ r.Method ≠ "HEAD") := by
      rintro ⟨h1, h2⟩
      rcases hm with h | h
      · exact h1 h
      · exact h2 h
    by_cases hlogin : r.Path = o.pathPrefix ++ "/login"
    · have hpre : openid.HasPrefix (o.pathPrefix ++ "/login") o.pathPrefix = true :=
        openid.HasPrefix_append _ _
      have h1 : ¬ (o.pathPrefix ++ "/login" = o.pathPrefix ++ "/logout") :=
        path_ne _ _ _ (by decide)
      have h2 : ¬ (o.pathPrefix ++ "/login" = o.pathPrefix ++ "/verify") :=
        path_ne _ _ _ (by decide)
      simp only [hpre, hm', hlogin, h1, h2, hm, Bool.not_true, Bool.false_eq_true, if_false,
        if_true, and_false, false_and, and_true, true_and]
      rcases o.openid.CheckIDSetup o.endpoint (o.pathPrefix ++ "/verify") [] now resp created
        with ⟨oid, url, e⟩
      by_cases hr : Get r.Query urlKeyRedirect = ""
      · cases e <;> simp [hr]
      · cases e <;> simp [hr, openid.GoMap.Load_Store_ne _ _ _ _ hkeys]
    · by_cases hlogout : r.Path = o.pathPrefix ++ "/logout"
      · have hpre : openid.HasPrefix (o.pathPrefix ++ "/logout") o.pathPrefix = true :=
          openid.HasPrefix_append _ _
        have h1 : ¬ (o.pathPrefix ++ "/logout" = o.pathPrefix ++ "/login") :=
          path_ne _ _ _ (by decide)
        simp only [hpre, hm', hlogout, h1, hm, Bool.not_true, Bool.false_eq_true, if_false,
          if_true, and_self]
        by_cases hr : Get r.Query urlKeyRedirect = ""
        · simp [hr, openid.GoMap.Load_Delete_self]
        · simp [hr, openid.GoMap.Load_Delete_self, openid.GoMap.Load_Delete_ne _ _ _ hkeys]
      · by_cases hverify : r.Path = o.pathPrefix ++ "/verify"
        · have hpre : openid.HasPrefix (o.pathPrefix ++ "/verify") o.pathPrefix = true :=
            openid.HasPrefix_append _ _
          have h1 : ¬ (o.pathPrefix ++ "/verify" = o.pathPrefix ++ "/login") :=
            path_ne _ _ _ (by decide)
          have h2 : ¬ (o.pathPrefix ++ "/verify" = o.pathPrefix ++ "/logout") :=
            path_ne _ _ _ (by decide)
          simp only [hpre, hm', hverify, h1, h2, hm, Bool.not_true, Bool.false_eq_true, if_false,
            if_true, and_false, true_and]
          rcases o.openid.IDRes H r.Query now with ⟨oid, user, e⟩
          cases e with
          | some err => simp
          | none =>
            simp only [if_true]
            cases hl : (s.Store sesKeyOpenID (SessionValue.user user)).Load sesKeyRedirect with
            | none => simp [openid.GoMap.Load_Store_self]
            | some val =>
              cases val with
              | str t =>
                simp [openid.GoMap.Load_Delete_ne _ _ _ hkeys, openid.GoMap.Load_Store_self]
              | user u => simp [openid.GoMap.Load_Store_self]
        · simp only [hlogin, hlogout, hverify, hm, hm', if_false, and_false, false_and]
          split <;> simp
  · have hm' : r.Method ≠ "GET" ∧ r.Method ≠ "HEAD" := by
      constructor
      · exact fun h => hm (Or.inl h)
      · exact fun h => hm (Or.inr h)
    simp only [hm, hm', false_and, if_false]
    split <;> simp

/-- C19: the session entry that holds the authenticated user changes in two
ways only.  For a request with a session, after `ServeHTTP`: on a GET or HEAD
request for the prefix followed by `/verify` on which `IDRes` returns no error
the entry is the mapping `IDRes` returned; on a GET or HEAD request for the
prefix followed by `/logout` the entry is absent; on every other request (a
path outside the prefix, another method, the login path, any other path, a
verify request on which `IDRes` fails) the entry is what it was.  So when
`GetUser` gives a user after the request that it did not give before, the
request was a verification that succeeded with that user.  A request without a
session has none afterwards. -/
theorem ServeHTTP_user_entry (H : openid.Hmac) (o : OpenID) (r : Request) (now : openid.Time)
    (resp : Option String) (created : openid.Time) :
    (r.session = none → (o.ServeHTTP H r now resp created).2.1 = none) ∧
    ∀ s, r.session = some s →
      ∃ s', (o.ServeHTTP H r now resp created).2.1 = some s' ∧
        (((r.Method = "GET" ∨ r.Method = "HEAD") ∧ r.Path = o.pathPrefix ++ "/verify" ∧
            (o.openid.IDRes H r.Query now).2.2 = none) →
          s'.Load sesKeyOpenID
            = some (SessionValue.user (o.openid.IDRes H r.Query now).2.1)) ∧
        (((r.Method = "GET" ∨ r.Method = "HEAD") ∧ r.Path = o.pathPrefix ++ "/logout") →
          s'.Load sesKeyOpenID = none) ∧
        (¬ ((r.Method = "GET" ∨ r.Method = "HEAD") ∧
              (r.Path = o.pathPrefix ++ "/logout" ∨
                (r.Path = o.pathPrefix ++ "/verify" ∧
                  (o.openid.IDRes H r.Query now).2.2 = none))) →
          s'.Load sesKeyOpenID = s.Load sesKeyOpenID) ∧
        (∀ m, GetUser s' = some (some m) → GetUser s ≠ some (some m) →
          (r.Method = "GET" ∨ r.Method = "HEAD") ∧ r.Path = o.pathPrefix ++ "/verify" ∧
            (o.openid.IDRes H r.Query now).2 = (some m, none)) := by
  have hvl : o.pathPrefix ++ "/verify" ≠ o.pathPrefix ++ "/logout" :=
    path_ne _ _ _ (by decide)
  refine ⟨?_, ?_⟩
  · intro hs
    unfold OpenID.ServeHTTP
    rw [hs]
    split
    · rfl
    · split <;> rfl
  · intro s hs
    obtain ⟨s', hs', hload⟩ := ServeHTTP_session H o r now resp created s hs
    refine ⟨s', hs', ?_, ?_, ?_, ?_⟩
    · rintro ⟨hm, hp, hok⟩
      rw [hload, if_neg (fun h => hvl (hp ▸ h.2)), if_pos ⟨hm, hp, hok⟩]
    · intro h
      rw [hload, if_pos h]
    · intro h
      rw [hload, if_neg (fun h' => h ⟨h'.1, Or.inl h'.2⟩),
        if_neg (fun h' => h ⟨h'.1, Or.inr h'.2⟩)]
    · intro m hafter hbefore
      by_cases hlo : (r.Method = "GET" ∨ r.Method = "HEAD") ∧ r.Path = o.pathPrefix ++ "/logout"
      · rw [if_pos hlo] at hload
        simp [GetUser, hload] at hafter
      · rw [if_neg hlo] at hload
        by_cases hve : (r.Method = "GET" ∨ r.Method = "HEAD") ∧
            r.Path = o.pathPrefix ++ "/verify" ∧ (o.openid.IDRes H r.Query now).2.2 = none
        · rw [if_pos hve] at hload
          simp only [GetUser, hload, Option.some.injEq] at hafter
          refine ⟨hve.1, hve.2.1, ?_⟩
          exact Prod.ext hafter hve.2.2
        · rw [if_neg hve] at hload
          unfold GetUser at hafter hbefore
          rw [hload] at hafter
          exact absurd hafter hbefore

/-- The sample verification request: the session has no user before, the
request is a GET for `/auth/verify` that `IDRes` accepts, and afterwards
`GetUser` gives the decoded assertion. -/
theorem ServeHTTP_sample_verify :
    GetUser sampleSession = some none ∧
    (sampleHandler.ServeHTTP openid.sampleHmac sampleVerify 50 none 60).2.2
      = Response.redirect "/home" 302 ∧
    (sampleHandler.ServeHTTP openid.sampleHmac sampleVerify 50 none 60).2.1.map GetUser
      = some (some (some (openid.parseHTTP sampleVerify.Query))) ∧
    (sampleHandler.ServeHTTP openid.sampleHmac sampleVerify 100 none 60).2.1.map GetUser
      = some (some none) := by
  decide

end login
